import Mathlib

/-!
Verification of the TTLV (Tag-Type-Length-Value) codec of this repository.

The encoder is embedded from `src/encode_ttlv.py` (class `EncodeTTLV`).
Python byte strings become `List Nat` (each entry one byte), the mutable
encoder object becomes an explicit `EncState` that every call threads, and
every Python exception becomes an `Except EncErr` error value.  The companion
decoder (`decode_ttlv.py`) is not part of the source tree — only its callers
are — so it is modelled from the specification where needed (marked
`Modelled from the spec:`).  The external registry `kmip.core.enums` that the
encoder reflects over is likewise modelled from the specification as static
lookup tables.
-/

namespace TTLV

/-! ## Byte-level primitives

`struct.pack` of the Python source, on lists of byte values.  A big-endian
field of width w is the list of the w base-256 digits; packing checks the
same ranges `struct.pack` checks and fails outside them. -/

/-- Padding needed to reach the next multiple of 8, as the source computes it:
`(8 - actual_size % 8) % 8`. -/
def pad8 (n : Nat) : Nat := (8 - n % 8) % 8

/-- Big-endian 4-byte rendering of a natural number (the digits of `n` in
base 256, for `n < 2^32`), as `struct.pack(">I", n)` lays it out. -/
def u32be (n : Nat) : List Nat :=
  [n / 16777216 % 256, n / 65536 % 256, n / 256 % 256, n % 256]

/-- Big-endian 8-byte rendering of a natural number, as `struct.pack(">Q", n)`
lays it out. -/
def u64be (n : Nat) : List Nat :=
  [n / 72057594037927936 % 256, n / 281474976710656 % 256,
   n / 1099511627776 % 256, n / 4294967296 % 256,
   n / 16777216 % 256, n / 65536 % 256, n / 256 % 256, n % 256]

/-- Two's-complement value of an integer modulo `2^32` (a natural number):
what `struct.pack(">i", i)` writes for `-2^31 ≤ i < 2^31`. -/
def toU32 (i : Int) : Nat := (i % 4294967296).toNat

/-- Two's-complement value of an integer modulo `2^64`. -/
def toU64 (i : Int) : Nat := (i % 18446744073709551616).toNat

/-- Errors of the encoder: each constructor is one of the exceptions the
Python source can raise.
* `enumNotFound` — `ValueError("Enum value '…' not found in …")` from
  `_get_enum_value`;
* `attrEnumNotFound` — `ValueError("… not found in attribute enums")` from
  `_get_enum_value_attr`;
* `unsupportedType` — `Exception("Unsupported type: …")` from
  `_encode_value`;
* `packRange` — `struct.error` when a value is outside the range of the
  format character of a `struct.pack` call;
* `pyError` — a `TypeError`/`ValueError`/`AttributeError` from misusing a
  builtin (`int()` on a non-numeric string, `bytes()` on a bad list,
  `binascii.unhexlify` on a bad hex string, `.split` on an `int`);
* `impure` — a path whose result depends on the wall clock
  (`time.time()` / `time.strptime`), outside a pure embedding. -/
inductive EncErr where
  | enumNotFound (enumName name : String)
  | attrEnumNotFound (name : String)
  | unsupportedType (ty : String)
  | packRange
  | pyError
  | impure
deriving DecidableEq, Repr

/-- Result of `struct.pack(">i", i)`: 4 big-endian two's-complement bytes for
`-2^31 ≤ i ≤ 2^31 - 1`, a `struct.error` otherwise. -/
def packI32 (i : Int) : Except EncErr (List Nat) :=
  if -2147483648 ≤ i ∧ i < 2147483648 then .ok (u32be (toU32 i)) else .error .packRange

/-- Result of `struct.pack(">I", i)`: 4 big-endian bytes for
`0 ≤ i < 2^32`, a `struct.error` otherwise. -/
def packU32 (i : Int) : Except EncErr (List Nat) :=
  if 0 ≤ i ∧ i < 4294967296 then .ok (u32be i.toNat) else .error .packRange

/-- Result of `struct.pack(">q", i)`: 8 big-endian two's-complement bytes for
`-2^63 ≤ i < 2^63`, a `struct.error` otherwise. -/
def packI64 (i : Int) : Except EncErr (List Nat) :=
  if -9223372036854775808 ≤ i ∧ i < 9223372036854775808 then .ok (u64be (toU64 i))
  else .error .packRange

/-- Result of `struct.pack(">Q", i)`: 8 big-endian bytes for `0 ≤ i < 2^64`,
a `struct.error` otherwise. -/
def packU64 (i : Int) : Except EncErr (List Nat) :=
  if 0 ≤ i ∧ i < 18446744073709551616 then .ok (u64be i.toNat) else .error .packRange

/-! ## Strings and bytes

Python string operations the source uses, implemented over `List Char` so
that every definition evaluates inside the kernel. -/

/-- UTF-8 bytes of one character (what CPython's `str.encode("utf-8")`
produces for it). -/
def utf8Char (c : Char) : List Nat :=
  let n := c.toNat
  if n < 128 then [n]
  else if n < 2048 then [192 + n / 64, 128 + n % 64]
  else if n < 65536 then [224 + n / 4096, 128 + n / 64 % 64, 128 + n % 64]
  else [240 + n / 262144, 128 + n / 4096 % 64, 128 + n / 64 % 64, 128 + n % 64]

/-- UTF-8 byte sequence of a string: `value.encode("utf-8")` in the source. -/
def utf8 (s : String) : List Nat := s.data.flatMap utf8Char

/-- One step of UTF-8 decoding with explicit fuel, accumulating characters in
reverse.  `bytes.decode("utf-8")` of the source; `none` is a
`UnicodeDecodeError`. -/
def utf8DecodeAux : Nat → List Nat → List Char → Option (List Char)
  | _, [], acc => some acc.reverse
  | 0, _ :: _, _ => none
  | fuel + 1, b :: rest, acc =>
    if b < 128 then utf8DecodeAux fuel rest (Char.ofNat b :: acc)
    else if b < 192 then none
    else if b < 224 then
      match rest with
      | b2 :: rest2 =>
        if 128 ≤ b2 ∧ b2 < 192 then
          utf8DecodeAux fuel rest2 (Char.ofNat ((b - 192) * 64 + (b2 - 128)) :: acc)
        else none
      | _ => none
    else if b < 240 then
      match rest with
      | b2 :: b3 :: rest3 =>
        if (128 ≤ b2 ∧ b2 < 192) ∧ (128 ≤ b3 ∧ b3 < 192) then
          utf8DecodeAux fuel rest3
            (Char.ofNat ((b - 224) * 4096 + (b2 - 128) * 64 + (b3 - 128)) :: acc)
        else none
      | _ => none
    else
      match rest with
      | b2 :: b3 :: b4 :: rest4 =>
        if (128 ≤ b2 ∧ b2 < 192) ∧ (128 ≤ b3 ∧ b3 < 192) ∧ (128 ≤ b4 ∧ b4 < 192) then
          utf8DecodeAux fuel rest4
            (Char.ofNat ((b - 240) * 262144 + (b2 - 128) * 4096 +
              (b3 - 128) * 64 + (b4 - 128)) :: acc)
        else none
      | _ => none

/-- UTF-8 decoding of a byte list; `none` is a `UnicodeDecodeError`. -/
def utf8Decode (bs : List Nat) : Option String :=
  (utf8DecodeAux bs.length bs []).map String.mk

/-- Python `str.capitalize()`: first character upper-cased, the rest
lower-cased. -/
def pyCapitalize (s : String) : String :=
  match s.data with
  | [] => ""
  | c :: rest => String.mk (c.toUpper :: rest.map Char.toLower)

/-- Splitting a character list on one separator character, as Python
`str.split` does (adjacent separators yield empty pieces). -/
def splitChar (sep : Char) : List Char → List (List Char)
  | [] => [[]]
  | c :: rest =>
    let tail := splitChar sep rest
    if c = sep then [] :: tail
    else
      match tail with
      | [] => [[c]]
      | piece :: more => (c :: piece) :: more

/-- The source's `''.join(x.capitalize() or '_' for x in enum_name.split('_'))`:
the CamelCase class name looked up in `kmip.core.enums`. -/
def capJoin (s : String) : String :=
  String.mk (((splitChar '_' s.data).map fun piece =>
    let cap := pyCapitalize (String.mk piece)
    if cap = "" then ['_'] else cap.data)).flatten

/-- Characters of a string with every space removed: the source's
`.replace(' ', '')` on the stored attribute name. -/
def dropSpaces (s : String) : String :=
  String.mk (s.data.filter fun c => c ≠ ' ')

/-- Value of one hexadecimal digit, `none` for a non-digit. -/
def hexDigit (c : Char) : Option Nat :=
  if '0' ≤ c ∧ c ≤ '9' then some (c.toNat - 48)
  else if 'a' ≤ c ∧ c ≤ 'f' then some (c.toNat - 87)
  else if 'A' ≤ c ∧ c ≤ 'F' then some (c.toNat - 55)
  else none

/-- Hex-pair decoding of a character list: `binascii.unhexlify`, failing on an
odd length or a non-hex character. -/
def unhexChars : List Char → Option (List Nat)
  | [] => some []
  | [_] => none
  | a :: b :: rest => do
    let hi ← hexDigit a
    let lo ← hexDigit b
    let tail ← unhexChars rest
    some ((hi * 16 + lo) :: tail)

/-- `binascii.unhexlify` on a string. -/
def unhex (s : String) : Option (List Nat) := unhexChars s.data

/-- Python `int(str)` on a decimal literal: optional surrounding whitespace,
optional sign, then decimal digits.  `none` is the `ValueError` CPython
raises for anything else.  (Underscore digit grouping is not modelled.) -/
def parsePyIntDigits : List Char → Option Nat
  | [] => none
  | ds =>
    if ds.all fun c => '0' ≤ c ∧ c ≤ '9' then
      some (ds.foldl (fun acc c => acc * 10 + (c.toNat - 48)) 0)
    else none

/-- Python `int(str)` (see `parsePyIntDigits`). -/
def parsePyInt (s : String) : Option Int :=
  match (s.data.filter fun c => c ≠ ' ') with
  | '-' :: ds => (parsePyIntDigits ds).map fun n => -(n : Int)
  | '+' :: ds => (parsePyIntDigits ds).map fun n => (n : Int)
  | ds => (parsePyIntDigits ds).map fun n => (n : Int)

end TTLV

namespace TTLV

/-! ## Registries

Modelled from the spec: the external registry `kmip.core.enums` that
`_get_enum_value` reflects over with `getattr` is not part of the source
tree; per §4.1 of the specification it is a set of static lookup tables
mapping symbolic names to fixed-width integer codes.  The tables below hold
the entries exercised by this repository (KMIP tag codes are the standard
3-byte `0x42....` values with a 16-bit low part, type codes are 8-bit). -/

/-- First-match association lookup in a name→code table (Python attribute
access on an enum class). -/
def assocLookup (k : String) : List (String × Int) → Option Int
  | [] => none
  | (k2, v) :: rest => if k = k2 then some v else assocLookup k rest

/-- Reverse lookup: the first name a code maps to. -/
def codeLookup (c : Int) : List (String × Int) → Option String
  | [] => none
  | (k2, v) :: rest => if c = v then some k2 else codeLookup c rest

/-- Modelled from the spec: the `Tags` enumeration of `kmip.core.enums` —
tag-name → 3-byte tag code (constant `0x42` marker in the high byte,
16-bit code below), restricted to the tags this repository uses. -/
def tagsTable : List (String × Int) :=
  [("ATTRIBUTE", 0x420008),
   ("ATTRIBUTE_NAME", 0x42000A),
   ("ATTRIBUTE_VALUE", 0x42000B),
   ("BATCH_COUNT", 0x42000D),
   ("BATCH_ITEM", 0x42000F),
   ("CREDENTIAL_TYPE", 0x420024),
   ("CREDENTIAL_VALUE", 0x420025),
   ("CRYPTOGRAPHIC_ALGORITHM", 0x420028),
   ("CRYPTOGRAPHIC_LENGTH", 0x42002A),
   ("OBJECT_TYPE", 0x420057),
   ("OPERATION", 0x42005C),
   ("PASSWORD", 0x4200A1),
   ("PROTOCOL_VERSION", 0x420069),
   ("PROTOCOL_VERSION_MAJOR", 0x42006A),
   ("PROTOCOL_VERSION_MINOR", 0x42006B),
   ("REQUEST_HEADER", 0x420077),
   ("REQUEST_MESSAGE", 0x420078),
   ("REQUEST_PAYLOAD", 0x420079),
   ("UNIQUE_BATCH_ITEM_ID", 0x420093),
   ("UNIQUE_IDENTIFIER", 0x420094),
   ("USERNAME", 0x420099)]

/-- Modelled from the spec: the `Types` enumeration of `kmip.core.enums` —
the eleven wire types and their 8-bit codes. -/
def typesTable : List (String × Int) :=
  [("STRUCTURE", 0x01),
   ("INTEGER", 0x02),
   ("LONG_INTEGER", 0x03),
   ("BIG_INTEGER", 0x04),
   ("ENUMERATION", 0x05),
   ("BOOLEAN", 0x06),
   ("TEXT_STRING", 0x07),
   ("BYTE_STRING", 0x08),
   ("DATE_TIME", 0x09),
   ("INTERVAL", 0x0A),
   ("DATE_TIME_EXTENDED", 0x0B)]

/-- Modelled from the spec: the enumeration classes of `kmip.core.enums`,
keyed by their CamelCase class name as `getattr(enums, type_name)` reaches
them, restricted to the namespaces and members this repository exercises.
A class name absent from this table is an `AttributeError` in the source. -/
def kmipEnums : List (String × List (String × Int)) :=
  [("Tags", tagsTable),
   ("Types", typesTable),
   ("CryptographicAlgorithm",
    [("DES", 1), ("TRIPLE_DES", 2), ("AES", 3), ("RSA", 4), ("DSA", 5)]),
   ("State",
    [("PRE_ACTIVE", 1), ("ACTIVE", 2), ("DEACTIVATED", 3), ("COMPROMISED", 4),
     ("DESTROYED", 5), ("DESTROYED_COMPROMISED", 6)]),
   ("CryptographicUsageMask",
    [("SIGN", 1), ("VERIFY", 2), ("ENCRYPT", 4), ("DECRYPT", 8),
     ("WRAP_KEY", 16), ("UNWRAP_KEY", 32)]),
   ("Operation",
    [("CREATE", 1), ("CREATE_KEY_PAIR", 2), ("REGISTER", 3), ("GET", 10),
     ("GET_ATTRIBUTES", 11), ("ACTIVATE", 18), ("DESTROY", 20), ("QUERY", 24),
     ("DISCOVER_VERSIONS", 30)]),
   ("ObjectType",
    [("CERTIFICATE", 1), ("SYMMETRIC_KEY", 2), ("PUBLIC_KEY", 3),
     ("PRIVATE_KEY", 4), ("SPLIT_KEY", 5), ("TEMPLATE", 6), ("SECRET_DATA", 7),
     ("OPAQUE_DATA", 8)]),
   ("CredentialType",
    [("USERNAME_AND_PASSWORD", 1), ("DEVICE_SPECIFIC", 2)])]

/-- Member lookup in a modelled `kmip.core.enums` class: `none` when the
class or the member is missing. -/
def kmipLookup (cls member : String) : Option Int :=
  match kmipEnums.find? fun p => p.1 = cls with
  | some (_, table) => assocLookup member table
  | none => none

/-! ## The Python-value model

The encoder's arguments are dynamically typed; the constructors below cover
the Python values the repository passes to `encode_ttlv`.  A `STRUCTURE`
value that is a Python list is `vList` of entries: `PyEntry.elem` is a dict
holding all three of the keys `tag`, `type` and `value`, and
`PyEntry.malformed` is any other list entry (a non-dict, or a dict missing
one of the keys) — `_encode_type_struct` distinguishes entries only by that
test. -/

/-- A tag argument: a tag-name string or an already-resolved integer. -/
inductive PyTag where
  | name (s : String)
  | num (i : Int)
deriving DecidableEq, Repr

mutual
inductive PyVal where
  | vInt (i : Int)
  | vStr (s : String)
  | vBytes (bs : List Nat)
  | vBool (b : Bool)
  | vList (entries : PyEntries)
  | vNone
deriving DecidableEq
inductive PyEntries where
  | nil
  | cons (e : PyEntry) (rest : PyEntries)
deriving DecidableEq
inductive PyEntry where
  | elem (tag : PyTag) (ty : String) (v : PyVal)
  | malformed
deriving DecidableEq
end

/-- Python `str(name)` as the resolver uses it for table and member lookups:
a string maps to itself; `str()` of a bytes object, list or `None` is a
rendering (`b'…'`, `[…]`, `None`) that matches no registry entry, modelled
as `none`. -/
def pyStrKey : PyVal → Option String
  | .vStr s => some s
  | _ => none

/-- The source's `common_mappings` dict in `_get_enum_value` (lines 198-210),
consulted when `enum_name == 'ATTRIBUTE_VALUE'`. -/
def commonMappings : List (String × Int) :=
  [("AES", 3), ("DES", 1), ("TRIPLE_DES", 2), ("RSA", 4), ("DSA", 5),
   ("SYMMETRIC_KEY", 2), ("PUBLIC_KEY", 3), ("PRIVATE_KEY", 4),
   ("CERTIFICATE", 6), ("USERNAME_AND_PASSWORD", 1), ("DEVICE_SPECIFIC", 2)]

/-- The source's `credential_mappings` (lines 216-219). -/
def credentialMappings : List (String × Int) :=
  [("USERNAME_AND_PASSWORD", 1), ("DEVICE_SPECIFIC", 2)]

/-- The source's `object_mappings` (lines 224-232). -/
def objectMappings : List (String × Int) :=
  [("CERTIFICATE", 1), ("SYMMETRIC_KEY", 2), ("PUBLIC_KEY", 3),
   ("PRIVATE_KEY", 4), ("SPLIT_KEY", 5), ("TEMPLATE", 6), ("SECRET_DATA", 7),
   ("OPAQUE_DATA", 8)]

/-- The source's `group_mappings` (lines 238-240). -/
def groupMappings : List (String × Int) :=
  [("DEFAULT", 0), ("NONE", 0)]

/-- The source's `state_mappings` in `_get_enum_value_attr` (lines 275-282). -/
def stateMappings : List (String × Int) :=
  [("PRE_ACTIVE", 1), ("ACTIVE", 2), ("DEACTIVATED", 3), ("COMPROMISED", 4),
   ("DESTROYED", 5), ("DESTROYED_COMPROMISED", 6)]

/-- `EncodeTTLV._get_enum_value(enum_name, name)` (lines 189-266).  An
integer `name` passes through unchanged; for a string, the hard-coded
special mappings are consulted first, then the CamelCased `enum_name` is
looked up as a class of `kmip.core.enums`; a miss everywhere is the final
`ValueError`.  `enumName` is the raw second argument of the Python call (a
tag name string, or an integer tag — on which `.split('_')` would raise). -/
def getEnumValue (enumName : PyTag) (name : PyVal) : Except EncErr Int :=
  match name with
  | .vInt i => .ok i
  | .vBool b => .ok (if b then 1 else 0)
  | _ =>
    let key := pyStrKey name
    match enumName with
    | .num _ =>
      match key with
      | some _ => .error .pyError
      | none => .error .pyError
    | .name en =>
      let special : Option Int :=
        if en = "ATTRIBUTE_VALUE" then key.bind fun k => assocLookup k commonMappings
        else none
      let special := special.orElse fun _ =>
        if en = "CREDENTIAL_TYPE" then key.bind fun k => assocLookup k credentialMappings
        else none
      let special := special.orElse fun _ =>
        if en = "OBJECT_TYPE" then key.bind fun k => assocLookup k objectMappings
        else none
      let special := special.orElse fun _ =>
        if en = "OBJECT_GROUP" then key.bind fun k => assocLookup k groupMappings
        else none
      match special with
      | some v => .ok v
      | none =>
        match key.bind fun k => kmipLookup (capJoin en) k with
        | some v => .ok v
        | none => .error (.enumNotFound en (key.getD ""))

/-- The fixed list of enum classes `_get_enum_value_attr` tries once a
non-empty attribute-name context decodes: the context itself (spaces
stripped), then `State`, `CryptographicUsageMask`, `CryptographicAlgorithm`
(line 300).  A missing class or member falls through to the next. -/
def tryAttrClasses (classes : List String) (member : String) : Option Int :=
  match classes with
  | [] => none
  | c :: rest =>
    match kmipLookup c member with
    | some v => some v
    | none => tryAttrClasses rest member

/-- `EncodeTTLV._get_enum_value_attr(tag, name)` (lines 268-324): resolution
of a generic attribute-value enumeration against the stored attribute-name
bytes.  Integers pass through; `state_mappings` is consulted first; with no
stored context (empty bytes) or an undecodable one the call falls back to
`_get_enum_value(tag, name)`; otherwise the decoded, space-stripped context
heads the class trial list, and a miss in every class is the `ValueError`
at line 320 (raised inside the `try` but not caught, since only
`AttributeError` and `UnicodeDecodeError` are). -/
def getEnumValueAttr (attrName : List Nat) (tag : PyTag) (name : PyVal) :
    Except EncErr Int :=
  match name with
  | .vInt i => .ok i
  | .vBool b => .ok (if b then 1 else 0)
  | _ =>
    let key := pyStrKey name
    match key.bind fun k => assocLookup k stateMappings with
    | some v => .ok v
    | none =>
      if attrName = [] then getEnumValue tag name
      else
        match utf8Decode attrName with
        | none => getEnumValue tag name
        | some ctx =>
          let typeName := dropSpaces ctx
          if typeName = "" then getEnumValue tag name
          else
            match key.bind fun k =>
                tryAttrClasses
                  [typeName, "State", "CryptographicUsageMask", "CryptographicAlgorithm"] k with
            | some v => .ok v
            | none => .error (.attrEnumNotFound (key.getD ""))

end TTLV

namespace TTLV

/-! ## The encoder

`EncodeTTLV` of `src/encode_ttlv.py`: the object's two mutable fields become
`EncState`, and every method threads the state explicitly.  Each child of a
structure is encoded through a brand-new encoder object
(`encoder = EncodeTTLV()` at line 91), hence `encodeStructList` starts every
child from `initState`. -/

/-- The mutable state of an `EncodeTTLV` object: `self.buffer` and
`self.attribute_name` (a byte string). -/
structure EncState where
  buffer : List Nat
  attributeName : List Nat
deriving DecidableEq, Repr

/-- A fresh encoder: `bytearray()` and `"".encode("utf-8")`. -/
def initState : EncState := ⟨[], []⟩

/-- The `PyVal` a `PyTag` denotes when handed to `_get_enum_value` as the
`name` argument. -/
def pyTagVal : PyTag → PyVal
  | .name s => .vStr s
  | .num i => .vInt i

/-- Python truthiness of a value, as `1 if value else 0` evaluates it. -/
def pyTruthy : PyVal → Bool
  | .vInt i => i ≠ 0
  | .vStr s => s ≠ ""
  | .vBytes bs => bs ≠ []
  | .vBool b => b
  | .vList es => es ≠ .nil
  | .vNone => false

/-- Python `int(value)` on the values the encoder can receive. -/
def pyInt : PyVal → Except EncErr Int
  | .vInt i => .ok i
  | .vBool b => .ok (if b then 1 else 0)
  | .vStr s =>
    match parsePyInt s with
    | some i => .ok i
    | none => .error .pyError
  | _ => .error .pyError

/-- Python `bytes(value)` on a non-`str` value: a bytes object passes
through, an integer count yields that many zero bytes (a Python `bool` being
an `int`), anything else the encoder receives is a `TypeError`. -/
def pyBytes : PyVal → Except EncErr (List Nat)
  | .vBytes bs => .ok bs
  | .vInt i => if 0 ≤ i then .ok (List.replicate i.toNat 0) else .error .pyError
  | .vBool b => .ok (List.replicate (if b then 1 else 0) 0)
  | _ => .error .pyError

/-- `EncodeTTLV._encode_tag` (lines 45-50): resolve the tag through the
`Tags` registry, keep its low 16 bits, and render
`struct.pack(">Bh", 0x42, tag_lower)` — note the *signed* short format
the source uses, which fails for a low part of `0x8000` and above. -/
def encodeTag (tag : PyTag) : Except EncErr (List Nat) :=
  match getEnumValue (.name "Tags") (pyTagVal tag) with
  | .error e => .error e
  | .ok tagValue =>
    let lower := (tagValue % 65536).toNat
    if lower < 32768 then .ok [0x42, lower / 256, lower % 256] else .error .packRange

/-- `EncodeTTLV._encode_type` (lines 52-55): resolve the type name through
the `Types` registry and render `struct.pack(">B", v)`. -/
def encodeType (ty : String) : Except EncErr (List Nat) :=
  match getEnumValue (.name "Types") (.vStr ty) with
  | .error e => .error e
  | .ok tv => if 0 ≤ tv ∧ tv < 256 then .ok [tv.toNat] else .error .packRange

/-- `EncodeTTLV._encode_type_int4` (lines 102-106): big-endian i32 plus 4
zero bytes, reported size 4. -/
def encodeTypeInt4 (v : PyVal) : Except EncErr (List Nat × Nat) :=
  match pyInt v with
  | .error e => .error e
  | .ok i =>
    match packI32 i with
    | .error e => .error e
    | .ok data => .ok (data ++ List.replicate 4 0, 4)

/-- `EncodeTTLV._encode_type_long` (lines 108-111): big-endian i64, size 8. -/
def encodeTypeLong (v : PyVal) : Except EncErr (List Nat × Nat) :=
  match pyInt v with
  | .error e => .error e
  | .ok i =>
    match packI64 i with
    | .error e => .error e
    | .ok data => .ok (data, 8)

/-- `EncodeTTLV._encode_type_bigint` (lines 113-117): the source's
placeholder treats a big integer exactly as a 64-bit long. -/
def encodeTypeBigint (v : PyVal) : Except EncErr (List Nat × Nat) :=
  match pyInt v with
  | .error e => .error e
  | .ok i =>
    match packI64 i with
    | .error e => .error e
    | .ok data => .ok (data, 8)

/-- `EncodeTTLV._encode_type_enum` (lines 119-130): an integer value is used
directly with no resolution; a non-integer under the `ATTRIBUTE_VALUE` tag
goes through the attribute-context resolver, any other tag through the plain
registry resolver; the result is a big-endian u32 plus 4 zero bytes,
size 4. -/
def encodeTypeEnum (attrName : List Nat) (v : PyVal) (tag : PyTag) :
    Except EncErr (List Nat × Nat) :=
  let ev : Except EncErr Int :=
    match v with
    | .vInt i => .ok i
    | .vBool b => .ok (if b then 1 else 0)
    | _ =>
      if tag = .name "ATTRIBUTE_VALUE" then getEnumValueAttr attrName tag v
      else getEnumValue tag v
  match ev with
  | .error e => .error e
  | .ok i =>
    match packU32 i with
    | .error e => .error e
    | .ok data => .ok (data ++ List.replicate 4 0, 4)

/-- `EncodeTTLV._encode_type_bool` (lines 132-136): truthiness as a
big-endian u64, size 8. -/
def encodeTypeBool (v : PyVal) : List Nat × Nat :=
  (u64be (if pyTruthy v then 1 else 0), 8)

/-- `EncodeTTLV._encode_type_text` (lines 138-151): UTF-8 bytes of a string
(or `bytes(value)` of anything else), stored into `self.attribute_name` when
the tag is `ATTRIBUTE_NAME`, zero-padded to a multiple of 8; the reported
size is the unpadded byte count. -/
def encodeTypeText (st : EncState) (v : PyVal) (tag : PyTag) :
    EncState × Except EncErr (List Nat × Nat) :=
  let tb : Except EncErr (List Nat) :=
    match v with
    | .vStr s => .ok (utf8 s)
    | other => pyBytes other
  match tb with
  | .error e => (st, .error e)
  | .ok textBytes =>
    let st2 := if tag = .name "ATTRIBUTE_NAME" then { st with attributeName := textBytes } else st
    (st2, .ok (textBytes ++ List.replicate (pad8 textBytes.length) 0, textBytes.length))

/-- `EncodeTTLV._encode_type_bytes` (lines 153-164): a string value is read
as hex (`binascii.unhexlify`), anything else as `bytes(value)`; zero-padded
to a multiple of 8, reported size unpadded. -/
def encodeTypeBytes (v : PyVal) : Except EncErr (List Nat × Nat) :=
  let bb : Except EncErr (List Nat) :=
    match v with
    | .vStr s =>
      match unhex s with
      | some bs => .ok bs
      | none => .error .pyError
    | other => pyBytes other
  match bb with
  | .error e => .error e
  | .ok byteData =>
    .ok (byteData ++ List.replicate (pad8 byteData.length) 0, byteData.length)

/-- `EncodeTTLV._encode_type_date` (lines 166-177): an integer timestamp
(a Python `bool` being an `int`) is packed as a big-endian u64, size 8.
A string goes through `time.strptime`/`time.mktime` and any other value
through `time.time()`; both depend on the wall clock or the local timezone,
which a pure embedding cannot model, so they are mapped to `EncErr.impure`. -/
def encodeTypeDate (v : PyVal) : Except EncErr (List Nat × Nat) :=
  match v with
  | .vInt i =>
    match packU64 i with
    | .error e => .error e
    | .ok data => .ok (data, 8)
  | .vBool b =>
    match packU64 (if b then 1 else 0) with
    | .error e => .error e
    | .ok data => .ok (data, 8)
  | _ => .error .impure

/-- `EncodeTTLV._encode_type_inter` (lines 179-183): big-endian i32 plus 4
zero bytes, size 4. -/
def encodeTypeInter (v : PyVal) : Except EncErr (List Nat × Nat) :=
  match pyInt v with
  | .error e => .error e
  | .ok i =>
    match packI32 i with
    | .error e => .error e
    | .ok data => .ok (data ++ List.replicate 4 0, 4)

/-- `EncodeTTLV._encode_type_exdate` (lines 185-187) delegates to
`_encode_type_date`. -/
def encodeTypeExdate (v : PyVal) : Except EncErr (List Nat × Nat) :=
  encodeTypeDate v

/-- The non-structure arm of `EncodeTTLV._encode_value` (lines 57-82): the
dispatch on the type name for every scalar type, ending in the
`Exception("Unsupported type: …")` branch.  Only the `TEXT_STRING` arm can
change the state. -/
def encodeScalarValue (ty : String) (v : PyVal) (tag : PyTag) (st : EncState) :
    EncState × Except EncErr (List Nat × Nat) :=
  if ty = "INTEGER" then (st, encodeTypeInt4 v)
  else if ty = "LONG_INTEGER" then (st, encodeTypeLong v)
  else if ty = "BIG_INTEGER" then (st, encodeTypeBigint v)
  else if ty = "ENUMERATION" then (st, encodeTypeEnum st.attributeName v tag)
  else if ty = "BOOLEAN" then (st, .ok (encodeTypeBool v))
  else if ty = "TEXT_STRING" then encodeTypeText st v tag
  else if ty = "BYTE_STRING" then (st, encodeTypeBytes v)
  else if ty = "DATE_TIME" then (st, encodeTypeDate v)
  else if ty = "INTERVAL" then (st, encodeTypeInter v)
  else if ty = "DATE_TIME_EXTENDED" then (st, encodeTypeExdate v)
  else (st, .error (.unsupportedType ty))

/-- `struct.pack(">I", size)` on the reported size (a natural number, so
only the upper bound of the `">I"` range can fail). -/
def packSize (n : Nat) : Except EncErr (List Nat) :=
  if n < 4294967296 then .ok (u32be n) else .error .packRange

/-- `packSize` agrees with `packU32` on the integer the size denotes. -/
theorem packSize_eq_packU32 (n : Nat) : packSize n = packU32 (n : Int) := by
  by_cases h : n < 4294967296
  · rw [packSize, if_pos h, packU32, if_pos]
    · simp
    · exact ⟨Int.natCast_nonneg n, by exact_mod_cast h⟩
  · rw [packSize, if_neg h, packU32, if_neg]
    intro hc
    exact h (by exact_mod_cast hc.2)

/-- Frame assembly of `encode_ttlv` (lines 23-43): given the results of
encoding the tag, the type and the value, pack the reported size as a
big-endian u32 and append tag, type, size and value bytes to the buffer,
returning the total byte count written; the first error wins and leaves the
buffer untouched. -/
def assemble (st : EncState) (tagRes tyRes : Except EncErr (List Nat))
    (step : EncState × Except EncErr (List Nat × Nat)) : EncState × Except EncErr Nat :=
  match tagRes with
  | .error e => (st, .error e)
  | .ok tagBytes =>
    match tyRes with
    | .error e => (st, .error e)
    | .ok typeByte =>
      match step with
      | (st2, .error e) => (st2, .error e)
      | (st2, .ok (valueBytes, size)) =>
        match packSize size with
        | .error e => (st2, .error e)
        | .ok sizeBytes =>
          ({ st2 with buffer := st2.buffer ++ tagBytes ++ typeByte ++ sizeBytes ++ valueBytes },
           .ok (tagBytes.length + typeByte.length + sizeBytes.length + valueBytes.length))

mutual
/-- `EncodeTTLV.encode_ttlv` (lines 23-43): encode the tag (3 bytes), the
type (1 byte), the value (through `_encode_value`, its structure arm inlined
here so that the recursion is structural), then assemble the frame.  An
exception anywhere leaves the buffer untouched (`self.buffer` is only
extended at lines 38-41, after everything has succeeded). -/
def encodeTTLVSt (st : EncState) (tag : PyTag) (ty : String) (v : PyVal) :
    EncState × Except EncErr Nat :=
  assemble st (encodeTag tag) (encodeType ty)
    (if ty = "STRUCTURE" then
      match v with
      | .vList es =>
        (st, match encodeStructList es with
             | .ok bs => .ok (bs, bs.length)
             | .error e => .error e)
      | .vBytes bs => (st, .ok (bs, bs.length))
      | _ => (st, .ok ([], 0))
    else encodeScalarValue ty v tag st)
/-- The loop of `EncodeTTLV._encode_type_struct` (lines 88-93): each entry
that is a dict with all three keys is encoded by a brand-new encoder and its
buffer appended; every other entry is skipped with no error. -/
def encodeStructList : PyEntries → Except EncErr (List Nat)
  | .nil => .ok []
  | .cons .malformed rest => encodeStructList rest
  | .cons (.elem tag ty v) rest =>
    match encodeTTLVSt initState tag ty v with
    | (stc, .ok _) =>
      match encodeStructList rest with
      | .ok tail => .ok (stc.buffer ++ tail)
      | .error e => .error e
    | (_, .error e) => .error e
end

/-- `EncodeTTLV._encode_type_struct` (lines 84-100): a list value is the
concatenation of its well-formed entries' frames, an already-encoded bytes
value passes through, anything else is the empty structure; the reported
size is the byte count in every arm. -/
def encodeTypeStruct (st : EncState) (v : PyVal) :
    EncState × Except EncErr (List Nat × Nat) :=
  match v with
  | .vList es =>
    (st, match encodeStructList es with
         | .ok bs => .ok (bs, bs.length)
         | .error e => .error e)
  | .vBytes bs => (st, .ok (bs, bs.length))
  | _ => (st, .ok ([], 0))

/-- `EncodeTTLV._encode_value` (lines 57-82) as one function: the structure
arm, then the scalar dispatch. -/
def encodeValue (ty : String) (v : PyVal) (tag : PyTag) (st : EncState) :
    EncState × Except EncErr (List Nat × Nat) :=
  if ty = "STRUCTURE" then encodeTypeStruct st v else encodeScalarValue ty v tag st

/-- `encode_ttlv` is the frame assembly around `_encode_value`. -/
theorem encodeTTLVSt_eq (st : EncState) (tag : PyTag) (ty : String) (v : PyVal) :
    encodeTTLVSt st tag ty v =
      assemble st (encodeTag tag) (encodeType ty) (encodeValue ty v tag st) := by
  cases v <;> rw [encodeTTLVSt]
  all_goals try (exact fun _ h => PyVal.noConfusion h)
  all_goals congr 1

end TTLV

namespace TTLV

/-! ## The symbolic element tree

The data model of §3 of the specification: an `Element` is a tag name, a
type, and a value; a structure owns an ordered list of children.  Text and
byte-string values are carried as their byte sequences (for a text value,
the UTF-8 bytes of the string — the encoder works on exactly these bytes),
and enumerations as their resolved integer code, as in §3
(`Enumeration(u32)`). -/

mutual
inductive Element where
  | int (tag : String) (i : Int)
  | long (tag : String) (i : Int)
  | big (tag : String) (i : Int)
  | enum (tag : String) (n : Nat)
  | bool (tag : String) (b : Bool)
  | text (tag : String) (bs : List Nat)
  | bytes (tag : String) (bs : List Nat)
  | date (tag : String) (n : Nat)
  | interval (tag : String) (i : Int)
  | exdate (tag : String) (n : Nat)
  | struct (tag : String) (children : Elements)
deriving DecidableEq
inductive Elements where
  | nil
  | cons (e : Element) (rest : Elements)
deriving DecidableEq
end

/-- The tag name of an element. -/
def elTag : Element → String
  | .int t _ | .long t _ | .big t _ | .enum t _ | .bool t _ | .text t _
  | .bytes t _ | .date t _ | .interval t _ | .exdate t _ | .struct t _ => t

/-- The type name of an element, as `encode_ttlv` receives it. -/
def elTypeName : Element → String
  | .int _ _ => "INTEGER"
  | .long _ _ => "LONG_INTEGER"
  | .big _ _ => "BIG_INTEGER"
  | .enum _ _ => "ENUMERATION"
  | .bool _ _ => "BOOLEAN"
  | .text _ _ => "TEXT_STRING"
  | .bytes _ _ => "BYTE_STRING"
  | .date _ _ => "DATE_TIME"
  | .interval _ _ => "INTERVAL"
  | .exdate _ _ => "DATE_TIME_EXTENDED"
  | .struct _ _ => "STRUCTURE"

mutual
/-- The Python value handed to `encode_ttlv` for an element: integers for
every numeric kind (an enumeration element carries its resolved code, so
symbolic resolution is skipped), bytes for text and byte strings, a list of
`tag`/`type`/`value` dicts for a structure. -/
def elPyVal : Element → PyVal
  | .int _ i => .vInt i
  | .long _ i => .vInt i
  | .big _ i => .vInt i
  | .enum _ n => .vInt (n : Int)
  | .bool _ b => .vBool b
  | .text _ bs => .vBytes bs
  | .bytes _ bs => .vBytes bs
  | .date _ n => .vInt (n : Int)
  | .interval _ i => .vInt i
  | .exdate _ n => .vInt (n : Int)
  | .struct _ cs => .vList (elEntries cs)
/-- The entry list of a structure value. -/
def elEntries : Elements → PyEntries
  | .nil => .nil
  | .cons c r => .cons (.elem (.name (elTag c)) (elTypeName c) (elPyVal c)) (elEntries r)
end

/-- The wire tag field an element's tag name produces: the marker byte `0x42`
followed by the big-endian low 16 bits of the registry code. -/
def tagBytes3 (t : String) : List Nat :=
  let c := (assocLookup t tagsTable).getD 0
  [0x42, (c % 65536).toNat / 256, (c % 65536).toNat % 256]

/-- The wire type code of a type name. -/
def typeCodeOf (ty : String) : Nat := ((assocLookup ty typesTable).getD 0).toNat

mutual
/-- Reference value bytes of an element as the encoder writes them (value
plus zero padding). -/
def wireOf : Element → List Nat
  | .int _ i => u32be (toU32 i) ++ List.replicate 4 0
  | .long _ i => u64be (toU64 i)
  | .big _ i => u64be (toU64 i)
  | .enum _ n => u32be n ++ List.replicate 4 0
  | .bool _ b => u64be (if b then 1 else 0)
  | .text _ bs => bs ++ List.replicate (pad8 bs.length) 0
  | .bytes _ bs => bs ++ List.replicate (pad8 bs.length) 0
  | .date _ n => u64be n
  | .interval _ i => u32be (toU32 i) ++ List.replicate 4 0
  | .exdate _ n => u64be n
  | .struct _ cs => framesOf cs
/-- Reference length field of an element: the unpadded byte count of its
value. -/
def sizeOfEl : Element → Nat
  | .int _ _ => 4
  | .long _ _ => 8
  | .big _ _ => 8
  | .enum _ _ => 4
  | .bool _ _ => 8
  | .text _ bs => bs.length
  | .bytes _ bs => bs.length
  | .date _ _ => 8
  | .interval _ _ => 4
  | .exdate _ _ => 8
  | .struct _ cs => (framesOf cs).length
/-- Reference byte frames of a list of sibling elements, concatenated. -/
def framesOf : Elements → List Nat
  | .nil => []
  | .cons c r =>
    (tagBytes3 (elTag c) ++ typeCodeOf (elTypeName c) :: u32be (sizeOfEl c) ++ wireOf c) ++
      framesOf r
end

/-- Reference full frame of one element: 3-byte tag, 1-byte type, 4-byte
big-endian length, then the (padded) value bytes. -/
def frameOf (e : Element) : List Nat :=
  tagBytes3 (elTag e) ++ typeCodeOf (elTypeName e) :: u32be (sizeOfEl e) ++ wireOf e

theorem framesOf_cons (c : Element) (r : Elements) :
    framesOf (.cons c r) = frameOf c ++ framesOf r := rfl

/-- The element's tag name has a registry entry. -/
def tagKnown (t : String) : Bool := (assocLookup t tagsTable).isSome

mutual
/-- Well-formedness of an element tree: every tag is registered, every
numeric value is in the range its `struct.pack` format accepts, every byte
is a byte, every length fits the 4-byte length field, and structure values
are lists of well-formed children. -/
def wfEl : Element → Bool
  | .int t i => tagKnown t && decide (-2147483648 ≤ i) && decide (i < 2147483648)
  | .long t i => tagKnown t && decide (-9223372036854775808 ≤ i) &&
      decide (i < 9223372036854775808)
  | .big t i => tagKnown t && decide (-9223372036854775808 ≤ i) &&
      decide (i < 9223372036854775808)
  | .enum t n => tagKnown t && decide (n < 4294967296)
  | .bool t _ => tagKnown t
  | .text t bs => tagKnown t && bs.all (· < 256) && decide (bs.length < 4294967296)
  | .bytes t bs => tagKnown t && bs.all (· < 256) && decide (bs.length < 4294967296)
  | .date t n => tagKnown t && decide (n < 18446744073709551616)
  | .interval t i => tagKnown t && decide (-2147483648 ≤ i) && decide (i < 2147483648)
  | .exdate t n => tagKnown t && decide (n < 18446744073709551616)
  | .struct t cs => tagKnown t && wfEls cs && decide ((framesOf cs).length < 4294967296)
def wfEls : Elements → Bool
  | .nil => true
  | .cons c r => wfEl c && wfEls r
end

end TTLV

namespace TTLV

theorem assocLookup_mem {k : String} {v : Int} {l : List (String × Int)}
    (h : assocLookup k l = some v) : (k, v) ∈ l := by
  induction l with
  | nil => simp [assocLookup] at h
  | cons p rest ih =>
    obtain ⟨k2, v2⟩ := p
    rw [assocLookup] at h
    split at h
    · obtain ⟨rfl⟩ := h
      rename_i hk
      subst hk
      exact List.mem_cons_self _ _
    · exact List.mem_cons_of_mem _ (ih h)

theorem tags_bounds : tagsTable.all (fun p => decide (4325376 ≤ p.2 ∧ p.2 < 4358144)) = true := by
  decide

theorem tags_code_bounds {t : String} {c : Int} (h : assocLookup t tagsTable = some c) :
    4325376 ≤ c ∧ c < 4358144 := by
  have hm := assocLookup_mem h
  have := List.all_eq_true.mp tags_bounds _ hm
  exact of_decide_eq_true this

/-- `_get_enum_value('Tags', name)` on a string is exactly a lookup in the
tags registry. -/
theorem getEnumValue_Tags (t : String) :
    getEnumValue (.name "Tags") (.vStr t) =
      (match assocLookup t tagsTable with
       | some v => .ok v
       | none => .error (.enumNotFound "Tags" t)) := rfl

/-- `_get_enum_value('Types', name)` on a string is exactly a lookup in the
types registry. -/
theorem getEnumValue_Types (t : String) :
    getEnumValue (.name "Types") (.vStr t) =
      (match assocLookup t typesTable with
       | some v => .ok v
       | none => .error (.enumNotFound "Types" t)) := rfl

/-- `_encode_tag` on a registered tag name yields the 3-byte wire tag. -/
theorem encodeTag_known {t : String} {c : Int} (h : assocLookup t tagsTable = some c) :
    encodeTag (.name t) = .ok (tagBytes3 t) := by
  have hb := tags_code_bounds h
  have hlow : (c % 65536).toNat < 32768 := by omega
  rw [encodeTag]
  simp only [pyTagVal, getEnumValue_Tags, h]
  rw [if_pos hlow]
  simp [tagBytes3, h]

/-- `_encode_type` on a registered type name yields its 1-byte code. -/
theorem encodeType_known {ty : String} {c : Int} (h : assocLookup ty typesTable = some c) :
    encodeType ty = .ok [typeCodeOf ty] := by
  have hm := assocLookup_mem h
  have hb : (0 : Int) ≤ c ∧ c < 256 := by
    have : typesTable.all (fun p => decide ((0 : Int) ≤ p.2 ∧ p.2 < 256)) = true := by decide
    exact of_decide_eq_true (List.all_eq_true.mp this _ hm)
  rw [encodeType]
  simp only [getEnumValue_Types, h]
  rw [if_pos hb]
  simp [typeCodeOf, h]

theorem packSize_small {n : Nat} (h : n < 4294967296) : packSize n = .ok (u32be n) := by
  rw [packSize, if_pos h]

/-- The success path of the frame assembly. -/
theorem assemble_ok (st : EncState) (a b : List Nat) (st2 : EncState) (vB : List Nat)
    (size : Nat) (sB : List Nat) (hS : packSize size = .ok sB) :
    assemble st (.ok a) (.ok b) (st2, .ok (vB, size)) =
      ({ st2 with buffer := st2.buffer ++ a ++ b ++ sB ++ vB },
       .ok (a.length + b.length + sB.length + vB.length)) := by
  simp only [assemble]
  rw [hS]

theorem tagBytes3_length (t : String) : (tagBytes3 t).length = 3 := rfl

theorem u32be_length (n : Nat) : (u32be n).length = 4 := rfl

theorem u64be_length (n : Nat) : (u64be n).length = 8 := rfl

end TTLV

namespace TTLV

theorem packU32_natCast {n : Nat} (h : n < 4294967296) :
    packU32 (n : Int) = .ok (u32be n) := by
  rw [← packSize_eq_packU32]
  exact packSize_small h

theorem packU64_natCast {n : Nat} (h : n < 18446744073709551616) :
    packU64 (n : Int) = .ok (u64be n) := by
  rw [packU64, if_pos]
  · simp
  · exact ⟨Int.natCast_nonneg n, by exact_mod_cast h⟩

theorem encodeValue_int {i : Int} (tag : PyTag) (st : EncState)
    (h1 : -2147483648 ≤ i) (h2 : i < 2147483648) :
    encodeValue "INTEGER" (.vInt i) tag st =
      (st, .ok (u32be (toU32 i) ++ List.replicate 4 0, 4)) := by
  rw [encodeValue, if_neg (by decide), encodeScalarValue, if_pos rfl]
  rw [encodeTypeInt4]
  simp only [pyInt]
  rw [packI32, if_pos ⟨h1, h2⟩]

theorem encodeValue_long {i : Int} (tag : PyTag) (st : EncState)
    (h1 : -9223372036854775808 ≤ i) (h2 : i < 9223372036854775808) :
    encodeValue "LONG_INTEGER" (.vInt i) tag st = (st, .ok (u64be (toU64 i), 8)) := by
  rw [encodeValue, if_neg (by decide), encodeScalarValue, if_neg (by decide), if_pos rfl]
  rw [encodeTypeLong]
  simp only [pyInt]
  rw [packI64, if_pos ⟨h1, h2⟩]

theorem encodeValue_big {i : Int} (tag : PyTag) (st : EncState)
    (h1 : -9223372036854775808 ≤ i) (h2 : i < 9223372036854775808) :
    encodeValue "BIG_INTEGER" (.vInt i) tag st = (st, .ok (u64be (toU64 i), 8)) := by
  rw [encodeValue, if_neg (by decide), encodeScalarValue, if_neg (by decide),
    if_neg (by decide), if_pos rfl]
  rw [encodeTypeBigint]
  simp only [pyInt]
  rw [packI64, if_pos ⟨h1, h2⟩]

/-- An enumeration whose value arrives as an integer is written unchanged:
no namespace resolution happens, whatever the tag and whatever attribute
context the encoder has stored. -/
theorem encodeValue_enumInt {i : Int} (tag : PyTag) (st : EncState)
    (h1 : 0 ≤ i) (h2 : i < 4294967296) :
    encodeValue "ENUMERATION" (.vInt i) tag st =
      (st, .ok (u32be i.toNat ++ List.replicate 4 0, 4)) := by
  rw [encodeValue, if_neg (by decide), encodeScalarValue, if_neg (by decide),
    if_neg (by decide), if_neg (by decide), if_pos rfl]
  rw [encodeTypeEnum]
  rw [packU32, if_pos ⟨h1, h2⟩]

theorem encodeValue_bool (v : PyVal) (tag : PyTag) (st : EncState) :
    encodeValue "BOOLEAN" v tag st =
      (st, .ok (u64be (if pyTruthy v then 1 else 0), 8)) := by
  rw [encodeValue, if_neg (by decide), encodeScalarValue, if_neg (by decide),
    if_neg (by decide), if_neg (by decide), if_neg (by decide), if_pos rfl]
  rw [encodeTypeBool]

theorem encodeValue_textBytes (bs : List Nat) (tag : PyTag) (st : EncState) :
    encodeValue "TEXT_STRING" (.vBytes bs) tag st =
      ((if tag = .name "ATTRIBUTE_NAME" then { st with attributeName := bs } else st),
       .ok (bs ++ List.replicate (pad8 bs.length) 0, bs.length)) := by
  rw [encodeValue, if_neg (by decide), encodeScalarValue, if_neg (by decide),
    if_neg (by decide), if_neg (by decide), if_neg (by decide), if_neg (by decide),
    if_pos rfl]
  rw [encodeTypeText]
  · rfl
  · exact fun _ h => PyVal.noConfusion h

theorem encodeValue_bytesBytes (bs : List Nat) (tag : PyTag) (st : EncState) :
    encodeValue "BYTE_STRING" (.vBytes bs) tag st =
      (st, .ok (bs ++ List.replicate (pad8 bs.length) 0, bs.length)) := by
  rw [encodeValue, if_neg (by decide), encodeScalarValue, if_neg (by decide),
    if_neg (by decide), if_neg (by decide), if_neg (by decide), if_neg (by decide),
    if_neg (by decide), if_pos rfl]
  rw [encodeTypeBytes]
  · rfl
  · exact fun _ h => PyVal.noConfusion h

theorem encodeValue_dateInt {n : Nat} (tag : PyTag) (st : EncState)
    (h : n < 18446744073709551616) :
    encodeValue "DATE_TIME" (.vInt (n : Int)) tag st = (st, .ok (u64be n, 8)) := by
  rw [encodeValue, if_neg (by decide), encodeScalarValue, if_neg (by decide),
    if_neg (by decide), if_neg (by decide), if_neg (by decide), if_neg (by decide),
    if_neg (by decide), if_neg (by decide), if_pos rfl]
  rw [encodeTypeDate]
  rw [packU64_natCast h]

theorem encodeValue_interval {i : Int} (tag : PyTag) (st : EncState)
    (h1 : -2147483648 ≤ i) (h2 : i < 2147483648) :
    encodeValue "INTERVAL" (.vInt i) tag st =
      (st, .ok (u32be (toU32 i) ++ List.replicate 4 0, 4)) := by
  rw [encodeValue, if_neg (by decide), encodeScalarValue, if_neg (by decide),
    if_neg (by decide), if_neg (by decide), if_neg (by decide), if_neg (by decide),
    if_neg (by decide), if_neg (by decide), if_neg (by decide), if_pos rfl]
  rw [encodeTypeInter]
  simp only [pyInt]
  rw [packI32, if_pos ⟨h1, h2⟩]

theorem encodeValue_exdateInt {n : Nat} (tag : PyTag) (st : EncState)
    (h : n < 18446744073709551616) :
    encodeValue "DATE_TIME_EXTENDED" (.vInt (n : Int)) tag st =
      (st, .ok (u64be n, 8)) := by
  rw [encodeValue, if_neg (by decide), encodeScalarValue, if_neg (by decide),
    if_neg (by decide), if_neg (by decide), if_neg (by decide), if_neg (by decide),
    if_neg (by decide), if_neg (by decide), if_neg (by decide), if_neg (by decide),
    if_pos rfl]
  rw [encodeTypeExdate, encodeTypeDate]
  rw [packU64_natCast h]

theorem encodeValue_structList (es : PyEntries) (tag : PyTag) (st : EncState) :
    encodeValue "STRUCTURE" (.vList es) tag st =
      (st, match encodeStructList es with
           | .ok bs => .ok (bs, bs.length)
           | .error e => .error e) := by
  rw [encodeValue, if_pos rfl, encodeTypeStruct]

end TTLV

namespace TTLV

theorem tagKnown_exists {t : String} (h : tagKnown t = true) :
    ∃ c, assocLookup t tagsTable = some c := by
  rw [tagKnown] at h
  exact Option.isSome_iff_exists.mp h

mutual
/-- On a well-formed element, `encode_ttlv` succeeds, appends exactly the
reference frame to the buffer, and returns its length. -/
theorem encodeEl_frame : ∀ (e : Element) (st : EncState), wfEl e = true →
    ∃ stf : EncState, encodeTTLVSt st (.name (elTag e)) (elTypeName e) (elPyVal e) =
      (stf, .ok (frameOf e).length) ∧ stf.buffer = st.buffer ++ frameOf e
  | .int t i, st, h => by
    simp only [wfEl, Bool.and_eq_true, decide_eq_true_eq] at h
    obtain ⟨⟨htag, h1⟩, h2⟩ := h
    obtain ⟨c, hc⟩ := tagKnown_exists htag
    simp only [elTag, elTypeName, elPyVal]
    rw [encodeTTLVSt_eq, encodeTag_known hc,
      encodeType_known (show assocLookup "INTEGER" typesTable = some 2 by decide),
      encodeValue_int _ _ h1 h2,
      assemble_ok _ _ _ _ _ _ _ (packSize_small (by decide))]
    refine ⟨_, rfl, ?_⟩
    simp [frameOf, elTag, elTypeName, sizeOfEl, wireOf]
  | .long t i, st, h => by
    simp only [wfEl, Bool.and_eq_true, decide_eq_true_eq] at h
    obtain ⟨⟨htag, h1⟩, h2⟩ := h
    obtain ⟨c, hc⟩ := tagKnown_exists htag
    simp only [elTag, elTypeName, elPyVal]
    rw [encodeTTLVSt_eq, encodeTag_known hc,
      encodeType_known (show assocLookup "LONG_INTEGER" typesTable = some 3 by decide),
      encodeValue_long _ _ h1 h2,
      assemble_ok _ _ _ _ _ _ _ (packSize_small (by decide))]
    refine ⟨_, rfl, ?_⟩
    simp [frameOf, elTag, elTypeName, sizeOfEl, wireOf]
  | .big t i, st, h => by
    simp only [wfEl, Bool.and_eq_true, decide_eq_true_eq] at h
    obtain ⟨⟨htag, h1⟩, h2⟩ := h
    obtain ⟨c, hc⟩ := tagKnown_exists htag
    simp only [elTag, elTypeName, elPyVal]
    rw [encodeTTLVSt_eq, encodeTag_known hc,
      encodeType_known (show assocLookup "BIG_INTEGER" typesTable = some 4 by decide),
      encodeValue_big _ _ h1 h2,
      assemble_ok _ _ _ _ _ _ _ (packSize_small (by decide))]
    refine ⟨_, rfl, ?_⟩
    simp [frameOf, elTag, elTypeName, sizeOfEl, wireOf]
  | .enum t n, st, h => by
    simp only [wfEl, Bool.and_eq_true, decide_eq_true_eq] at h
    obtain ⟨htag, h2⟩ := h
    obtain ⟨c, hc⟩ := tagKnown_exists htag
    simp only [elTag, elTypeName, elPyVal]
    rw [encodeTTLVSt_eq, encodeTag_known hc,
      encodeType_known (show assocLookup "ENUMERATION" typesTable = some 5 by decide),
      encodeValue_enumInt _ _ (Int.natCast_nonneg n) (by exact_mod_cast h2),
      assemble_ok _ _ _ _ _ _ _ (packSize_small (by decide))]
    simp only [Int.toNat_natCast]
    refine ⟨_, rfl, ?_⟩
    simp [frameOf, elTag, elTypeName, sizeOfEl, wireOf]
  | .bool t b, st, h => by
    simp only [wfEl] at h
    obtain ⟨c, hc⟩ := tagKnown_exists h
    simp only [elTag, elTypeName, elPyVal]
    rw [encodeTTLVSt_eq, encodeTag_known hc,
      encodeType_known (show assocLookup "BOOLEAN" typesTable = some 6 by decide),
      encodeValue_bool,
      assemble_ok _ _ _ _ _ _ _ (packSize_small (by decide))]
    refine ⟨_, rfl, ?_⟩
    simp [frameOf, elTag, elTypeName, sizeOfEl, wireOf, pyTruthy]
  | .text t bs, st, h => by
    simp only [wfEl, Bool.and_eq_true, decide_eq_true_eq] at h
    obtain ⟨⟨htag, _⟩, h2⟩ := h
    obtain ⟨c, hc⟩ := tagKnown_exists htag
    simp only [elTag, elTypeName, elPyVal]
    rw [encodeTTLVSt_eq, encodeTag_known hc,
      encodeType_known (show assocLookup "TEXT_STRING" typesTable = some 7 by decide),
      encodeValue_textBytes,
      assemble_ok _ _ _ _ _ _ _ (packSize_small h2)]
    have hlen : (frameOf (Element.text t bs)).length =
        (tagBytes3 t).length + [typeCodeOf "TEXT_STRING"].length +
          (u32be bs.length).length + (bs ++ List.replicate (pad8 bs.length) 0).length := by
      simp [frameOf, elTag, elTypeName, sizeOfEl, wireOf]
      omega
    rw [hlen]
    refine ⟨_, rfl, ?_⟩
    split <;>
      simp [frameOf, elTag, elTypeName, sizeOfEl, wireOf, List.append_assoc]
  | .bytes t bs, st, h => by
    simp only [wfEl, Bool.and_eq_true, decide_eq_true_eq] at h
    obtain ⟨⟨htag, _⟩, h2⟩ := h
    obtain ⟨c, hc⟩ := tagKnown_exists htag
    simp only [elTag, elTypeName, elPyVal]
    rw [encodeTTLVSt_eq, encodeTag_known hc,
      encodeType_known (show assocLookup "BYTE_STRING" typesTable = some 8 by decide),
      encodeValue_bytesBytes,
      assemble_ok _ _ _ _ _ _ _ (packSize_small h2)]
    have hlen : (frameOf (Element.bytes t bs)).length =
        (tagBytes3 t).length + [typeCodeOf "BYTE_STRING"].length +
          (u32be bs.length).length + (bs ++ List.replicate (pad8 bs.length) 0).length := by
      simp [frameOf, elTag, elTypeName, sizeOfEl, wireOf]
      omega
    rw [hlen]
    refine ⟨_, rfl, ?_⟩
    simp [frameOf, elTag, elTypeName, sizeOfEl, wireOf, List.append_assoc]
  | .date t n, st, h => by
    simp only [wfEl, Bool.and_eq_true, decide_eq_true_eq] at h
    obtain ⟨htag, h2⟩ := h
    obtain ⟨c, hc⟩ := tagKnown_exists htag
    simp only [elTag, elTypeName, elPyVal]
    rw [encodeTTLVSt_eq, encodeTag_known hc,
      encodeType_known (show assocLookup "DATE_TIME" typesTable = some 9 by decide),
      encodeValue_dateInt _ _ h2,
      assemble_ok _ _ _ _ _ _ _ (packSize_small (by decide))]
    refine ⟨_, rfl, ?_⟩
    simp [frameOf, elTag, elTypeName, sizeOfEl, wireOf]
  | .interval t i, st, h => by
    simp only [wfEl, Bool.and_eq_true, decide_eq_true_eq] at h
    obtain ⟨⟨htag, h1⟩, h2⟩ := h
    obtain ⟨c, hc⟩ := tagKnown_exists htag
    simp only [elTag, elTypeName, elPyVal]
    rw [encodeTTLVSt_eq, encodeTag_known hc,
      encodeType_known (show assocLookup "INTERVAL" typesTable = some 10 by decide),
      encodeValue_interval _ _ h1 h2,
      assemble_ok _ _ _ _ _ _ _ (packSize_small (by decide))]
    refine ⟨_, rfl, ?_⟩
    simp [frameOf, elTag, elTypeName, sizeOfEl, wireOf]
  | .exdate t n, st, h => by
    simp only [wfEl, Bool.and_eq_true, decide_eq_true_eq] at h
    obtain ⟨htag, h2⟩ := h
    obtain ⟨c, hc⟩ := tagKnown_exists htag
    simp only [elTag, elTypeName, elPyVal]
    rw [encodeTTLVSt_eq, encodeTag_known hc,
      encodeType_known (show assocLookup "DATE_TIME_EXTENDED" typesTable = some 11 by decide),
      encodeValue_exdateInt _ _ h2,
      assemble_ok _ _ _ _ _ _ _ (packSize_small (by decide))]
    refine ⟨_, rfl, ?_⟩
    simp [frameOf, elTag, elTypeName, sizeOfEl, wireOf]
  | .struct t cs, st, h => by
    simp only [wfEl, Bool.and_eq_true, decide_eq_true_eq] at h
    obtain ⟨⟨htag, hcs⟩, hsz⟩ := h
    obtain ⟨c, hc⟩ := tagKnown_exists htag
    simp only [elTag, elTypeName, elPyVal]
    rw [encodeTTLVSt_eq, encodeTag_known hc,
      encodeType_known (show assocLookup "STRUCTURE" typesTable = some 1 by decide),
      encodeValue_structList, encodeEls_frames cs hcs,
      assemble_ok _ _ _ _ _ _ _ (packSize_small hsz)]
    have hlen : (frameOf (Element.struct t cs)).length =
        (tagBytes3 t).length + [typeCodeOf "STRUCTURE"].length +
          (u32be (framesOf cs).length).length + (framesOf cs).length := by
      simp [frameOf, elTag, elTypeName, sizeOfEl, wireOf]
      omega
    rw [hlen]
    refine ⟨_, rfl, ?_⟩
    simp [frameOf, elTag, elTypeName, sizeOfEl, wireOf, List.append_assoc]
/-- On a well-formed list of children, the structure loop produces exactly
the concatenation of the reference frames. -/
theorem encodeEls_frames : ∀ (cs : Elements), wfEls cs = true →
    encodeStructList (elEntries cs) = .ok (framesOf cs)
  | .nil, _ => rfl
  | .cons c r, h => by
    simp only [wfEls, Bool.and_eq_true] at h
    obtain ⟨hc, hr⟩ := h
    obtain ⟨stf, henc, hbuf⟩ := encodeEl_frame c initState hc
    rw [elEntries, encodeStructList, henc, encodeEls_frames r hr]
    rw [framesOf_cons]
    simp [hbuf, initState]
end

end TTLV

namespace TTLV

/-! ## The decoder

Modelled from the spec: the companion decoder (`decode_ttlv.py`) is invoked
throughout the repository (`DecodeTTLV(buffer).decode()`) but its source is
not in the tree.  Per §4.2-§4.3 of the specification it reads a 3-byte tag
(constant marker byte then the 16-bit code, mapped back to the symbolic tag
name), a 1-byte type code (mapped back to the type name), a 4-byte
big-endian length, then the declared number of value bytes, skipping forward
to the next 8-byte boundary and ignoring the padding bytes (the default,
non-strict policy of §4.2); structures are parsed by decoding child elements
from the length-delimited region until it is exhausted; fixed-width scalars
reverse each encode rule exactly.  A truncated buffer or an unknown code
fails.  The `fuel` argument only bounds recursion depth; the wrapper
`decodeTTLV` supplies enough for any buffer. -/

/-- Big-endian value of 4 bytes. -/
def be32 (a b c d : Nat) : Nat := ((a * 256 + b) * 256 + c) * 256 + d

/-- Big-endian value of 8 bytes. -/
def be64 (a b c d e f g h : Nat) : Nat :=
  ((((((a * 256 + b) * 256 + c) * 256 + d) * 256 + e) * 256 + f) * 256 + g) * 256 + h

/-- Two's-complement reading of a 32-bit value. -/
def fromU32 (n : Nat) : Int :=
  if n < 2147483648 then (n : Int) else (n : Int) - 4294967296

/-- Two's-complement reading of a 64-bit value. -/
def fromU64 (n : Nat) : Int :=
  if n < 9223372036854775808 then (n : Int) else (n : Int) - 18446744073709551616

/-- Modelled from the spec: the decoder's reverse tag lookup (wire code back
to symbolic tag name). -/
def tagNameOfCode (c : Int) : Option String := codeLookup c tagsTable

/-- Modelled from the spec: the decoder's reverse type lookup. -/
def typeNameOfCode (c : Int) : Option String := codeLookup c typesTable

mutual
/-- Modelled from the spec: decode one TTLV element from the front of a
buffer, returning it with the unconsumed remainder. -/
def decodeOne : Nat → List Nat → Option (Element × List Nat)
  | 0, _ => none
  | _ + 1, [] => none
  | _ + 1, [_] => none
  | _ + 1, [_, _] => none
  | _ + 1, [_, _, _] => none
  | _ + 1, [_, _, _, _] => none
  | _ + 1, [_, _, _, _, _] => none
  | _ + 1, [_, _, _, _, _, _] => none
  | _ + 1, [_, _, _, _, _, _, _] => none
  | fuel + 1, t0 :: t1 :: t2 :: tc :: l0 :: l1 :: l2 :: l3 :: rest =>
    if t0 = 66 then
      match tagNameOfCode ((4325376 + (t1 * 256 + t2) : Nat) : Int) with
      | none => none
      | some tname =>
        match typeNameOfCode ((tc : Nat) : Int) with
        | none => none
        | some tyname =>
          let len := be32 l0 l1 l2 l3
          if tyname = "STRUCTURE" then
            if len + pad8 len ≤ rest.length then
              match decodeList fuel (rest.take len) with
              | some cs => some (.struct tname cs, rest.drop (len + pad8 len))
              | none => none
            else none
          else if tyname = "INTEGER" then
            match rest with
            | v0 :: v1 :: v2 :: v3 :: _ :: _ :: _ :: _ :: rest2 =>
              if len = 4 then some (.int tname (fromU32 (be32 v0 v1 v2 v3)), rest2)
              else none
            | _ => none
          else if tyname = "LONG_INTEGER" then
            match rest with
            | v0 :: v1 :: v2 :: v3 :: v4 :: v5 :: v6 :: v7 :: rest2 =>
              if len = 8 then
                some (.long tname (fromU64 (be64 v0 v1 v2 v3 v4 v5 v6 v7)), rest2)
              else none
            | _ => none
          else if tyname = "BIG_INTEGER" then
            match rest with
            | v0 :: v1 :: v2 :: v3 :: v4 :: v5 :: v6 :: v7 :: rest2 =>
              if len = 8 then
                some (.big tname (fromU64 (be64 v0 v1 v2 v3 v4 v5 v6 v7)), rest2)
              else none
            | _ => none
          else if tyname = "ENUMERATION" then
            match rest with
            | v0 :: v1 :: v2 :: v3 :: _ :: _ :: _ :: _ :: rest2 =>
              if len = 4 then some (.enum tname (be32 v0 v1 v2 v3), rest2)
              else none
            | _ => none
          else if tyname = "BOOLEAN" then
            match rest with
            | v0 :: v1 :: v2 :: v3 :: v4 :: v5 :: v6 :: v7 :: rest2 =>
              if len = 8 then
                match be64 v0 v1 v2 v3 v4 v5 v6 v7 with
                | 0 => some (.bool tname false, rest2)
                | 1 => some (.bool tname true, rest2)
                | _ => none
              else none
            | _ => none
          else if tyname = "TEXT_STRING" then
            if len + pad8 len ≤ rest.length then
              some (.text tname (rest.take len), rest.drop (len + pad8 len))
            else none
          else if tyname = "BYTE_STRING" then
            if len + pad8 len ≤ rest.length then
              some (.bytes tname (rest.take len), rest.drop (len + pad8 len))
            else none
          else if tyname = "DATE_TIME" then
            match rest with
            | v0 :: v1 :: v2 :: v3 :: v4 :: v5 :: v6 :: v7 :: rest2 =>
              if len = 8 then some (.date tname (be64 v0 v1 v2 v3 v4 v5 v6 v7), rest2)
              else none
            | _ => none
          else if tyname = "INTERVAL" then
            match rest with
            | v0 :: v1 :: v2 :: v3 :: _ :: _ :: _ :: _ :: rest2 =>
              if len = 4 then some (.interval tname (fromU32 (be32 v0 v1 v2 v3)), rest2)
              else none
            | _ => none
          else if tyname = "DATE_TIME_EXTENDED" then
            match rest with
            | v0 :: v1 :: v2 :: v3 :: v4 :: v5 :: v6 :: v7 :: rest2 =>
              if len = 8 then some (.exdate tname (be64 v0 v1 v2 v3 v4 v5 v6 v7), rest2)
              else none
            | _ => none
          else none
    else none
/-- Modelled from the spec: decode a run of sibling elements until the
buffer region is exhausted. -/
def decodeList : Nat → List Nat → Option Elements
  | fuel, bs =>
    if bs.isEmpty then some .nil
    else
      match fuel with
      | 0 => none
      | fuel + 1 =>
        match decodeOne fuel bs with
        | some (e, rest) =>
          match decodeList fuel rest with
          | some cs => some (.cons e cs)
          | none => none
        | none => none
end

/-- Modelled from the spec: the top-level decode pass, §4.3 — repeat
`decodeOne` until the buffer is exhausted, yielding the sequence of
top-level sibling elements. -/
def decodeTTLV (bs : List Nat) : Option Elements := decodeList (bs.length + 1) bs

end TTLV

namespace TTLV

/-! ## Round-trip: arithmetic and registry lemmas -/

theorem be32_u32be {n : Nat} (h : n < 4294967296) :
    be32 (n / 16777216 % 256) (n / 65536 % 256) (n / 256 % 256) (n % 256) = n := by
  unfold be32
  omega

theorem be64_u64be {n : Nat} (h : n < 18446744073709551616) :
    be64 (n / 72057594037927936 % 256) (n / 281474976710656 % 256)
      (n / 1099511627776 % 256) (n / 4294967296 % 256)
      (n / 16777216 % 256) (n / 65536 % 256) (n / 256 % 256) (n % 256) = n := by
  unfold be64
  omega

theorem toU32_lt (i : Int) : toU32 i < 4294967296 := by
  unfold toU32
  omega

theorem toU64_lt (i : Int) : toU64 i < 18446744073709551616 := by
  unfold toU64
  omega

theorem fromU32_toU32 {i : Int} (h1 : -2147483648 ≤ i) (h2 : i < 2147483648) :
    fromU32 (toU32 i) = i := by
  unfold fromU32 toU32
  split <;> omega

theorem fromU64_toU64 {i : Int} (h1 : -9223372036854775808 ≤ i)
    (h2 : i < 9223372036854775808) : fromU64 (toU64 i) = i := by
  unfold fromU64 toU64
  split <;> omega

theorem tags_reverse :
    tagsTable.all (fun p => codeLookup p.2 tagsTable == some p.1) = true := by decide

/-- The wire tag of a registered tag name decodes back to that name. -/
theorem tagNameOfCode_roundtrip {t : String} {c : Int}
    (hc : assocLookup t tagsTable = some c) :
    tagNameOfCode ((4325376 +
      ((c % 65536).toNat / 256 * 256 + (c % 65536).toNat % 256) : Nat) : Int) = some t := by
  have hb := tags_code_bounds hc
  have hm := assocLookup_mem hc
  have hrev : codeLookup c tagsTable = some t := by
    have := List.all_eq_true.mp tags_reverse _ hm
    exact eq_of_beq this
  have harg : ((4325376 +
      ((c % 65536).toNat / 256 * 256 + (c % 65536).toNat % 256) : Nat) : Int) = c := by
    omega
  rw [tagNameOfCode, harg, hrev]

/-! ## Sizes for the decode fuel -/

mutual
/-- Structural size of an element: an upper bound for the decoder's fuel. -/
def elSize : Element → Nat
  | .struct _ cs => 1 + elsSize cs
  | _ => 1
def elsSize : Elements → Nat
  | .nil => 0
  | .cons c r => 1 + elSize c + elsSize r
end

mutual
theorem frameOf_mod8 : ∀ e : Element, (frameOf e).length % 8 = 0
  | .int t i => by
    simp [frameOf, elTag, elTypeName, sizeOfEl, wireOf, tagBytes3, u32be_length, u64be_length]
  | .long t i => by
    simp [frameOf, elTag, elTypeName, sizeOfEl, wireOf, tagBytes3, u32be_length, u64be_length]
  | .big t i => by
    simp [frameOf, elTag, elTypeName, sizeOfEl, wireOf, tagBytes3, u32be_length, u64be_length]
  | .enum t n => by
    simp [frameOf, elTag, elTypeName, sizeOfEl, wireOf, tagBytes3, u32be_length, u64be_length]
  | .bool t b => by
    simp [frameOf, elTag, elTypeName, sizeOfEl, wireOf, tagBytes3, u32be_length, u64be_length]
  | .text t bs => by
    simp [frameOf, elTag, elTypeName, sizeOfEl, wireOf, tagBytes3, u32be_length, pad8]
    omega
  | .bytes t bs => by
    simp [frameOf, elTag, elTypeName, sizeOfEl, wireOf, tagBytes3, u32be_length, pad8]
    omega
  | .date t n => by
    simp [frameOf, elTag, elTypeName, sizeOfEl, wireOf, tagBytes3, u32be_length, u64be_length]
  | .interval t i => by
    simp [frameOf, elTag, elTypeName, sizeOfEl, wireOf, tagBytes3, u32be_length, u64be_length]
  | .exdate t n => by
    simp [frameOf, elTag, elTypeName, sizeOfEl, wireOf, tagBytes3, u32be_length, u64be_length]
  | .struct t cs => by
    have h := framesOf_mod8 cs
    simp [frameOf, elTag, elTypeName, sizeOfEl, wireOf, tagBytes3, u32be_length]
    omega
theorem framesOf_mod8 : ∀ cs : Elements, (framesOf cs).length % 8 = 0
  | .nil => rfl
  | .cons c r => by
    have h1 := frameOf_mod8 c
    have h2 := framesOf_mod8 r
    rw [framesOf_cons]
    simp only [List.length_append]
    omega
end

mutual
theorem elSize_le_frame : ∀ e : Element, 1 + elSize e ≤ (frameOf e).length
  | .int t i => by
    simp [frameOf, elTag, elTypeName, sizeOfEl, wireOf, tagBytes3, u32be_length, u64be_length,
      elSize]
  | .long t i => by
    simp [frameOf, elTag, elTypeName, sizeOfEl, wireOf, tagBytes3, u32be_length, u64be_length,
      elSize]
  | .big t i => by
    simp [frameOf, elTag, elTypeName, sizeOfEl, wireOf, tagBytes3, u32be_length, u64be_length,
      elSize]
  | .enum t n => by
    simp [frameOf, elTag, elTypeName, sizeOfEl, wireOf, tagBytes3, u32be_length, u64be_length,
      elSize]
  | .bool t b => by
    simp [frameOf, elTag, elTypeName, sizeOfEl, wireOf, tagBytes3, u32be_length, u64be_length,
      elSize]
  | .text t bs => by
    simp [frameOf, elTag, elTypeName, sizeOfEl, wireOf, tagBytes3, u32be_length, elSize]
  | .bytes t bs => by
    simp [frameOf, elTag, elTypeName, sizeOfEl, wireOf, tagBytes3, u32be_length, elSize]
  | .date t n => by
    simp [frameOf, elTag, elTypeName, sizeOfEl, wireOf, tagBytes3, u32be_length, u64be_length,
      elSize]
  | .interval t i => by
    simp [frameOf, elTag, elTypeName, sizeOfEl, wireOf, tagBytes3, u32be_length, u64be_length,
      elSize]
  | .exdate t n => by
    simp [frameOf, elTag, elTypeName, sizeOfEl, wireOf, tagBytes3, u32be_length, u64be_length,
      elSize]
  | .struct t cs => by
    have h := elsSize_le_frames cs
    simp [frameOf, elTag, elTypeName, sizeOfEl, wireOf, tagBytes3, u32be_length, elSize]
    omega
theorem elsSize_le_frames : ∀ cs : Elements, elsSize cs ≤ (framesOf cs).length
  | .nil => by simp [elsSize, framesOf]
  | .cons c r => by
    have h1 := elSize_le_frame c
    have h2 := elsSize_le_frames r
    rw [framesOf_cons]
    simp only [List.length_append, elsSize]
    omega
end

end TTLV

namespace TTLV

theorem u32be_four : u32be 4 = [0, 0, 0, 4] := rfl

theorem u32be_eight : u32be 8 = [0, 0, 0, 8] := rfl

theorem typeName_STRUCTURE :
    typeNameOfCode ((typeCodeOf "STRUCTURE" : Nat) : Int) = some "STRUCTURE" := rfl

theorem typeName_INTEGER :
    typeNameOfCode ((typeCodeOf "INTEGER" : Nat) : Int) = some "INTEGER" := rfl

theorem typeName_LONG :
    typeNameOfCode ((typeCodeOf "LONG_INTEGER" : Nat) : Int) = some "LONG_INTEGER" := rfl

theorem typeName_BIG :
    typeNameOfCode ((typeCodeOf "BIG_INTEGER" : Nat) : Int) = some "BIG_INTEGER" := rfl

theorem typeName_ENUM :
    typeNameOfCode ((typeCodeOf "ENUMERATION" : Nat) : Int) = some "ENUMERATION" := rfl

theorem typeName_BOOLEAN :
    typeNameOfCode ((typeCodeOf "BOOLEAN" : Nat) : Int) = some "BOOLEAN" := rfl

theorem typeName_TEXT :
    typeNameOfCode ((typeCodeOf "TEXT_STRING" : Nat) : Int) = some "TEXT_STRING" := rfl

theorem typeName_BYTE :
    typeNameOfCode ((typeCodeOf "BYTE_STRING" : Nat) : Int) = some "BYTE_STRING" := rfl

theorem typeName_DATE :
    typeNameOfCode ((typeCodeOf "DATE_TIME" : Nat) : Int) = some "DATE_TIME" := rfl

theorem typeName_INTERVAL :
    typeNameOfCode ((typeCodeOf "INTERVAL" : Nat) : Int) = some "INTERVAL" := rfl

theorem typeName_EXDATE :
    typeNameOfCode ((typeCodeOf "DATE_TIME_EXTENDED" : Nat) : Int) =
      some "DATE_TIME_EXTENDED" := rfl

mutual
/-- Decoding inverts encoding: the reference frame of a well-formed element,
followed by any remainder, decodes to exactly that element and that
remainder. -/
theorem decodeOne_frame : ∀ (e : Element) (fuel : Nat) (rest : List Nat), wfEl e = true →
    elSize e ≤ fuel → decodeOne fuel (frameOf e ++ rest) = some (e, rest)
  | e, 0, _, _, hfuel => absurd hfuel (by cases e <;> simp [elSize])
  | .int t i, f + 1, rest, h, _ => by
    simp only [wfEl, Bool.and_eq_true, decide_eq_true_eq] at h
    obtain ⟨⟨htag, h1⟩, h2⟩ := h
    obtain ⟨c, hc⟩ := tagKnown_exists htag
    have hv : fromU32 (be32 (toU32 i / 16777216 % 256) (toU32 i / 65536 % 256)
        (toU32 i / 256 % 256) (toU32 i % 256)) = i := by
      rw [be32_u32be (toU32_lt i)]
      exact fromU32_toU32 h1 h2
    simp only [frameOf, elTag, elTypeName, sizeOfEl, wireOf, tagBytes3, hc, Option.getD_some,
      u32be_four, u32be, List.replicate, List.cons_append, List.nil_append, List.append_assoc]
    rw [decodeOne, tagNameOfCode_roundtrip hc, typeName_INTEGER]
    simp [show be32 0 0 0 4 = 4 from rfl, hv]
  | .long t i, f + 1, rest, h, _ => by
    simp only [wfEl, Bool.and_eq_true, decide_eq_true_eq] at h
    obtain ⟨⟨htag, h1⟩, h2⟩ := h
    obtain ⟨c, hc⟩ := tagKnown_exists htag
    have hv : fromU64 (be64 (toU64 i / 72057594037927936 % 256)
        (toU64 i / 281474976710656 % 256) (toU64 i / 1099511627776 % 256)
        (toU64 i / 4294967296 % 256) (toU64 i / 16777216 % 256) (toU64 i / 65536 % 256)
        (toU64 i / 256 % 256) (toU64 i % 256)) = i := by
      rw [be64_u64be (toU64_lt i)]
      exact fromU64_toU64 h1 h2
    simp only [frameOf, elTag, elTypeName, sizeOfEl, wireOf, tagBytes3, hc, Option.getD_some,
      u32be_eight, u64be, List.replicate, List.cons_append, List.nil_append, List.append_assoc]
    rw [decodeOne, tagNameOfCode_roundtrip hc, typeName_LONG]
    simp [show be32 0 0 0 8 = 8 from rfl, hv]
  | .big t i, f + 1, rest, h, _ => by
    simp only [wfEl, Bool.and_eq_true, decide_eq_true_eq] at h
    obtain ⟨⟨htag, h1⟩, h2⟩ := h
    obtain ⟨c, hc⟩ := tagKnown_exists htag
    have hv : fromU64 (be64 (toU64 i / 72057594037927936 % 256)
        (toU64 i / 281474976710656 % 256) (toU64 i / 1099511627776 % 256)
        (toU64 i / 4294967296 % 256) (toU64 i / 16777216 % 256) (toU64 i / 65536 % 256)
        (toU64 i / 256 % 256) (toU64 i % 256)) = i := by
      rw [be64_u64be (toU64_lt i)]
      exact fromU64_toU64 h1 h2
    simp only [frameOf, elTag, elTypeName, sizeOfEl, wireOf, tagBytes3, hc, Option.getD_some,
      u32be_eight, u64be, List.replicate, List.cons_append, List.nil_append, List.append_assoc]
    rw [decodeOne, tagNameOfCode_roundtrip hc, typeName_BIG]
    simp [show be32 0 0 0 8 = 8 from rfl, hv]
  | .enum t n, f + 1, rest, h, _ => by
    simp only [wfEl, Bool.and_eq_true, decide_eq_true_eq] at h
    obtain ⟨htag, h2⟩ := h
    obtain ⟨c, hc⟩ := tagKnown_exists htag
    have hv : be32 (n / 16777216 % 256) (n / 65536 % 256) (n / 256 % 256) (n % 256) = n :=
      be32_u32be h2
    simp only [frameOf, elTag, elTypeName, sizeOfEl, wireOf, tagBytes3, hc, Option.getD_some,
      u32be_four, u32be, List.replicate, List.cons_append, List.nil_append, List.append_assoc]
    rw [decodeOne, tagNameOfCode_roundtrip hc, typeName_ENUM]
    simp [show be32 0 0 0 4 = 4 from rfl, hv]
  | .bool t b, f + 1, rest, h, _ => by
    simp only [wfEl] at h
    obtain ⟨c, hc⟩ := tagKnown_exists h
    cases b <;>
      (simp only [frameOf, elTag, elTypeName, sizeOfEl, wireOf, tagBytes3, hc, Option.getD_some,
        u32be_eight, u64be, List.replicate, List.cons_append, List.nil_append, List.append_assoc]
       rw [decodeOne, tagNameOfCode_roundtrip hc, typeName_BOOLEAN]
       simp [show be32 0 0 0 8 = 8 from rfl, be64])
  | .text t bs, f + 1, rest, h, _ => by
    simp only [wfEl, Bool.and_eq_true, decide_eq_true_eq] at h
    obtain ⟨⟨htag, _⟩, h2⟩ := h
    obtain ⟨c, hc⟩ := tagKnown_exists htag
    have hlen : be32 (bs.length / 16777216 % 256) (bs.length / 65536 % 256)
        (bs.length / 256 % 256) (bs.length % 256) = bs.length := be32_u32be h2
    simp only [frameOf, elTag, elTypeName, sizeOfEl, wireOf, tagBytes3, hc, Option.getD_some,
      u32be, List.cons_append, List.nil_append, List.append_assoc]
    rw [decodeOne, tagNameOfCode_roundtrip hc, typeName_TEXT]
    simp only [hlen, String.reduceEq, reduceIte]
    split
    · rw [List.take_left' rfl]
      rw [show bs ++ (List.replicate (pad8 bs.length) 0 ++ rest) =
        (bs ++ List.replicate (pad8 bs.length) 0) ++ rest by simp [List.append_assoc]]
      rw [List.drop_left' (by simp only [List.length_append, List.length_replicate])]
    · rename_i hcond
      exfalso
      apply hcond
      simp only [List.length_append, List.length_replicate]
      omega
  | .bytes t bs, f + 1, rest, h, _ => by
    simp only [wfEl, Bool.and_eq_true, decide_eq_true_eq] at h
    obtain ⟨⟨htag, _⟩, h2⟩ := h
    obtain ⟨c, hc⟩ := tagKnown_exists htag
    have hlen : be32 (bs.length / 16777216 % 256) (bs.length / 65536 % 256)
        (bs.length / 256 % 256) (bs.length % 256) = bs.length := be32_u32be h2
    simp only [frameOf, elTag, elTypeName, sizeOfEl, wireOf, tagBytes3, hc, Option.getD_some,
      u32be, List.cons_append, List.nil_append, List.append_assoc]
    rw [decodeOne, tagNameOfCode_roundtrip hc, typeName_BYTE]
    simp only [hlen, String.reduceEq, reduceIte]
    split
    · rw [List.take_left' rfl]
      rw [show bs ++ (List.replicate (pad8 bs.length) 0 ++ rest) =
        (bs ++ List.replicate (pad8 bs.length) 0) ++ rest by simp [List.append_assoc]]
      rw [List.drop_left' (by simp only [List.length_append, List.length_replicate])]
    · rename_i hcond
      exfalso
      apply hcond
      simp only [List.length_append, List.length_replicate]
      omega
  | .date t n, f + 1, rest, h, _ => by
    simp only [wfEl, Bool.and_eq_true, decide_eq_true_eq] at h
    obtain ⟨htag, h2⟩ := h
    obtain ⟨c, hc⟩ := tagKnown_exists htag
    have hv : be64 (n / 72057594037927936 % 256) (n / 281474976710656 % 256)
        (n / 1099511627776 % 256) (n / 4294967296 % 256) (n / 16777216 % 256)
        (n / 65536 % 256) (n / 256 % 256) (n % 256) = n := be64_u64be h2
    simp only [frameOf, elTag, elTypeName, sizeOfEl, wireOf, tagBytes3, hc, Option.getD_some,
      u32be_eight, u64be, List.replicate, List.cons_append, List.nil_append, List.append_assoc]
    rw [decodeOne, tagNameOfCode_roundtrip hc, typeName_DATE]
    simp [show be32 0 0 0 8 = 8 from rfl, hv]
  | .interval t i, f + 1, rest, h, _ => by
    simp only [wfEl, Bool.and_eq_true, decide_eq_true_eq] at h
    obtain ⟨⟨htag, h1⟩, h2⟩ := h
    obtain ⟨c, hc⟩ := tagKnown_exists htag
    have hv : fromU32 (be32 (toU32 i / 16777216 % 256) (toU32 i / 65536 % 256)
        (toU32 i / 256 % 256) (toU32 i % 256)) = i := by
      rw [be32_u32be (toU32_lt i)]
      exact fromU32_toU32 h1 h2
    simp only [frameOf, elTag, elTypeName, sizeOfEl, wireOf, tagBytes3, hc, Option.getD_some,
      u32be_four, u32be, List.replicate, List.cons_append, List.nil_append, List.append_assoc]
    rw [decodeOne, tagNameOfCode_roundtrip hc, typeName_INTERVAL]
    simp [show be32 0 0 0 4 = 4 from rfl, hv]
  | .exdate t n, f + 1, rest, h, _ => by
    simp only [wfEl, Bool.and_eq_true, decide_eq_true_eq] at h
    obtain ⟨htag, h2⟩ := h
    obtain ⟨c, hc⟩ := tagKnown_exists htag
    have hv : be64 (n / 72057594037927936 % 256) (n / 281474976710656 % 256)
        (n / 1099511627776 % 256) (n / 4294967296 % 256) (n / 16777216 % 256)
        (n / 65536 % 256) (n / 256 % 256) (n % 256) = n := be64_u64be h2
    simp only [frameOf, elTag, elTypeName, sizeOfEl, wireOf, tagBytes3, hc, Option.getD_some,
      u32be_eight, u64be, List.replicate, List.cons_append, List.nil_append, List.append_assoc]
    rw [decodeOne, tagNameOfCode_roundtrip hc, typeName_EXDATE]
    simp [show be32 0 0 0 8 = 8 from rfl, hv]
  | .struct t cs, f + 1, rest, h, hfuel => by
    simp only [wfEl, Bool.and_eq_true, decide_eq_true_eq] at h
    obtain ⟨⟨htag, hcs⟩, hsz⟩ := h
    obtain ⟨c, hc⟩ := tagKnown_exists htag
    have hfuel2 : elsSize cs ≤ f := by
      simp only [elSize] at hfuel
      omega
    have hlen : be32 ((framesOf cs).length / 16777216 % 256)
        ((framesOf cs).length / 65536 % 256) ((framesOf cs).length / 256 % 256)
        ((framesOf cs).length % 256) = (framesOf cs).length := be32_u32be hsz
    have hpad : pad8 (framesOf cs).length = 0 := by
      have := framesOf_mod8 cs
      unfold pad8
      omega
    simp only [frameOf, elTag, elTypeName, sizeOfEl, wireOf, tagBytes3, hc, Option.getD_some,
      u32be, List.cons_append, List.nil_append, List.append_assoc]
    rw [decodeOne, tagNameOfCode_roundtrip hc, typeName_STRUCTURE]
    simp only [hlen, hpad, String.reduceEq, reduceIte, Nat.add_zero]
    rw [if_pos (show (framesOf cs).length ≤ (framesOf cs ++ rest).length by
      simp [List.length_append])]
    rw [List.take_left' rfl]
    rw [decodeList_frames cs f hcs hfuel2]
    rw [List.drop_left' rfl]
/-- Decoding a region that is exactly the concatenated frames of a
well-formed list of siblings yields that list. -/
theorem decodeList_frames : ∀ (cs : Elements) (fuel : Nat), wfEls cs = true →
    elsSize cs ≤ fuel → decodeList fuel (framesOf cs) = some cs
  | .nil, fuel, _, _ => by
    rw [show framesOf .nil = [] from rfl, decodeList.eq_def]
    simp
  | .cons c r, fuel, h, hfuel => by
    simp only [wfEls, Bool.and_eq_true] at h
    obtain ⟨hc, hr⟩ := h
    cases fuel with
    | zero =>
      exact absurd hfuel (by simp [elsSize])
    | succ f =>
      have hc1 : elSize c ≤ f := by
        simp only [elsSize] at hfuel
        omega
      have hr1 : elsSize r ≤ f := by
        simp only [elsSize] at hfuel
        omega
      have hne : (frameOf c ++ framesOf r).isEmpty = false := by
        have h8 := elSize_le_frame c
        rw [List.isEmpty_eq_false]
        intro hnil
        rw [List.append_eq_nil] at hnil
        rw [hnil.1] at h8
        simp [elSize] at h8
      rw [framesOf_cons, decodeList.eq_def]
      simp only [hne, Bool.false_eq_true, if_false,
        decodeOne_frame c f (framesOf r) hc hc1, decodeList_frames r f hr hr1]
end

end TTLV

namespace TTLV

/-- `encode(Element)`: run `encode_ttlv` on a fresh encoder (`EncodeTTLV()`)
with the element's tag name, type name and Python value, and return the
resulting buffer; `none` when the call raises. -/
def encodeEl (e : Element) : Option (List Nat) :=
  match encodeTTLVSt initState (.name (elTag e)) (elTypeName e) (elPyVal e) with
  | (st, .ok _) => some st.buffer
  | (_, .error _) => none

/-- On a well-formed element the encoder produces exactly the reference
frame. -/
theorem encodeEl_eq_frameOf {e : Element} (h : wfEl e = true) :
    encodeEl e = some (frameOf e) := by
  obtain ⟨stf, henc, hbuf⟩ := encodeEl_frame e initState h
  rw [encodeEl, henc]
  simp [hbuf, initState]

/-- Decoding the reference frame of a well-formed element yields exactly
that element (as the single top-level element of the buffer). -/
theorem decodeTTLV_frameOf {e : Element} (h : wfEl e = true) :
    decodeTTLV (frameOf e) = some (.cons e .nil) := by
  rw [decodeTTLV]
  have hsz : elsSize (.cons e .nil) ≤ (frameOf e).length + 1 := by
    have := elSize_le_frame e
    simp only [elsSize]
    omega
  have hres := decodeList_frames (.cons e .nil) ((frameOf e).length + 1)
    (by simp [wfEls, h]) hsz
  rwa [framesOf_cons, show framesOf .nil = [] from rfl, List.append_nil] at hres

end TTLV

namespace TTLV

theorem packSize_ok {n : Nat} {d : List Nat} (h : packSize n = .ok d) :
    d = u32be n ∧ n < 4294967296 := by
  rw [packSize] at h
  split at h
  · cases h
    exact ⟨rfl, by assumption⟩
  · cases h

theorem packI32_ok {i : Int} {d : List Nat} (h : packI32 i = .ok d) :
    d = u32be (toU32 i) := by
  rw [packI32] at h
  split at h
  · cases h
    rfl
  · cases h

theorem packI64_ok {i : Int} {d : List Nat} (h : packI64 i = .ok d) :
    d = u64be (toU64 i) := by
  rw [packI64] at h
  split at h
  · cases h
    rfl
  · cases h

theorem packU32_ok {i : Int} {d : List Nat} (h : packU32 i = .ok d) :
    d = u32be i.toNat := by
  rw [packU32] at h
  split at h
  · cases h
    rfl
  · cases h

theorem packU64_ok {i : Int} {d : List Nat} (h : packU64 i = .ok d) :
    d = u64be i.toNat := by
  rw [packU64] at h
  split at h
  · cases h
    rfl
  · cases h

theorem encodeTag_ok_length {tag : PyTag} {tb : List Nat} (h : encodeTag tag = .ok tb) :
    tb.length = 3 := by
  rw [encodeTag] at h
  split at h
  · cases h
  · dsimp only at h
    split at h
    · cases h
      rfl
    · cases h

theorem encodeType_ok_length {ty : String} {tb : List Nat} (h : encodeType ty = .ok tb) :
    tb.length = 1 := by
  rw [encodeType] at h
  split at h
  · cases h
  · split at h
    · cases h
      rfl
    · cases h

/-- Decomposition of a successful `encode_ttlv` call: the tag, type, length
and value fields succeed individually, the buffer grows by exactly the frame
(3-byte tag, 1-byte type, 4-byte big-endian length field holding the size
reported by `_encode_value`, then the value bytes), and the returned count is
the frame's length. -/
theorem encodeTTLVSt_ok_decomp {st : EncState} {tag : PyTag} {ty : String} {v : PyVal}
    {st3 : EncState} {n : Nat} (h : encodeTTLVSt st tag ty v = (st3, .ok n)) :
    ∃ tagB tyB st2 vB size,
      encodeTag tag = .ok tagB ∧ encodeType ty = .ok tyB ∧
      encodeValue ty v tag st = (st2, .ok (vB, size)) ∧ size < 4294967296 ∧
      st3 = { st2 with buffer := st2.buffer ++ tagB ++ tyB ++ u32be size ++ vB } ∧
      n = tagB.length + tyB.length + 4 + vB.length := by
  rw [encodeTTLVSt_eq] at h
  cases hT : encodeTag tag with
  | error e =>
    rw [hT] at h
    simp [assemble] at h
  | ok tagB =>
    rw [hT] at h
    cases hY : encodeType ty with
    | error e =>
      rw [hY] at h
      simp [assemble] at h
    | ok tyB =>
      rw [hY] at h
      cases hV : encodeValue ty v tag st with
      | mk st2 res =>
        rw [hV] at h
        cases res with
        | error e =>
          simp [assemble] at h
        | ok pr =>
          obtain ⟨vB, size⟩ := pr
          cases hS : packSize size with
          | error e =>
            rw [assemble] at h
            rw [hS] at h
            simp at h
          | ok sizeB =>
            obtain ⟨hsb, hlt⟩ := packSize_ok hS
            subst hsb
            rw [assemble_ok _ _ _ _ _ _ _ hS] at h
            obtain ⟨hA, hB⟩ := Prod.mk.injEq .. ▸ h
            refine ⟨tagB, tyB, st2, vB, size, rfl, rfl, rfl, hlt, hA.symm, ?_⟩
            cases hB
            simp [u32be_length]

end TTLV

namespace TTLV

theorem shape_int4 {v : PyVal} {vB : List Nat} {size : Nat}
    (h : encodeTypeInt4 v = .ok (vB, size)) :
    size = 4 ∧ vB.length = 8 ∧ vB.drop 4 = List.replicate 4 0 := by
  rw [encodeTypeInt4] at h
  split at h
  · cases h
  · split at h
    · cases h
    · rename_i i hi data hd
      cases h
      rw [packI32_ok hd]
      exact ⟨rfl, rfl, List.drop_left' rfl⟩

theorem shape_inter {v : PyVal} {vB : List Nat} {size : Nat}
    (h : encodeTypeInter v = .ok (vB, size)) :
    size = 4 ∧ vB.length = 8 ∧ vB.drop 4 = List.replicate 4 0 := by
  rw [encodeTypeInter] at h
  split at h
  · cases h
  · split at h
    · cases h
    · rename_i i hi data hd
      cases h
      rw [packI32_ok hd]
      exact ⟨rfl, rfl, List.drop_left' rfl⟩

theorem shape_enum {attr : List Nat} {v : PyVal} {tag : PyTag} {vB : List Nat} {size : Nat}
    (h : encodeTypeEnum attr v tag = .ok (vB, size)) :
    size = 4 ∧ vB.length = 8 ∧ vB.drop 4 = List.replicate 4 0 := by
  have tail : ∀ (i : Int), (match packU32 i with
      | Except.error e => (Except.error e : Except EncErr (List Nat × Nat))
      | Except.ok data => Except.ok (data ++ List.replicate 4 0, 4)) = .ok (vB, size) →
      size = 4 ∧ vB.length = 8 ∧ vB.drop 4 = List.replicate 4 0 := by
    intro i hm
    split at hm
    · cases hm
    · rename_i data hd
      cases hm
      obtain rfl := packU32_ok hd
      exact ⟨rfl, rfl, List.drop_left' rfl⟩
  cases v with
  | vInt i =>
    simp only [encodeTypeEnum] at h
    exact tail i h
  | vBool b =>
    simp only [encodeTypeEnum] at h
    exact tail _ h
  | vStr s =>
    simp only [encodeTypeEnum] at h
    split at h
    · cases h
    · rename_i i hi
      exact tail i h
  | vBytes bs =>
    simp only [encodeTypeEnum] at h
    split at h
    · cases h
    · rename_i i hi
      exact tail i h
  | vList es =>
    simp only [encodeTypeEnum] at h
    split at h
    · cases h
    · rename_i i hi
      exact tail i h
  | vNone =>
    simp only [encodeTypeEnum] at h
    split at h
    · cases h
    · rename_i i hi
      exact tail i h

theorem shape_long {v : PyVal} {vB : List Nat} {size : Nat}
    (h : encodeTypeLong v = .ok (vB, size)) : size = 8 ∧ vB.length = 8 := by
  rw [encodeTypeLong] at h
  split at h
  · cases h
  · split at h
    · cases h
    · rename_i i hi data hd
      cases h
      rw [packI64_ok hd]
      exact ⟨rfl, rfl⟩

theorem shape_bigint {v : PyVal} {vB : List Nat} {size : Nat}
    (h : encodeTypeBigint v = .ok (vB, size)) : size = 8 ∧ vB.length = 8 := by
  rw [encodeTypeBigint] at h
  split at h
  · cases h
  · split at h
    · cases h
    · rename_i i hi data hd
      cases h
      rw [packI64_ok hd]
      exact ⟨rfl, rfl⟩

theorem shape_date {v : PyVal} {vB : List Nat} {size : Nat}
    (h : encodeTypeDate v = .ok (vB, size)) : size = 8 ∧ vB.length = 8 := by
  have tail : ∀ (i : Int), (match packU64 i with
      | Except.error e => (Except.error e : Except EncErr (List Nat × Nat))
      | Except.ok data => Except.ok (data, 8)) = .ok (vB, size) →
      size = 8 ∧ vB.length = 8 := by
    intro i hm
    split at hm
    · cases hm
    · rename_i data hd
      cases hm
      obtain rfl := packU64_ok hd
      exact ⟨rfl, rfl⟩
  cases v with
  | vInt i =>
    simp only [encodeTypeDate] at h
    exact tail i h
  | vBool b =>
    simp only [encodeTypeDate] at h
    exact tail _ h
  | vStr s =>
    simp only [encodeTypeDate] at h
    exact Except.noConfusion h
  | vBytes bs =>
    simp only [encodeTypeDate] at h
    exact Except.noConfusion h
  | vList es =>
    simp only [encodeTypeDate] at h
    exact Except.noConfusion h
  | vNone =>
    simp only [encodeTypeDate] at h
    exact Except.noConfusion h

theorem shape_exdate {v : PyVal} {vB : List Nat} {size : Nat}
    (h : encodeTypeExdate v = .ok (vB, size)) : size = 8 ∧ vB.length = 8 := by
  rw [encodeTypeExdate] at h
  exact shape_date h

theorem shape_bool (v : PyVal) :
    (encodeTypeBool v).2 = 8 ∧ (encodeTypeBool v).1.length = 8 := by
  rw [encodeTypeBool]
  exact ⟨rfl, rfl⟩

theorem shape_text {st : EncState} {v : PyVal} {tag : PyTag} {st2 : EncState}
    {vB : List Nat} {size : Nat} (h : encodeTypeText st v tag = (st2, .ok (vB, size))) :
    ∃ core, vB = core ++ List.replicate (pad8 core.length) 0 ∧ size = core.length ∧
      (∀ s, v = .vStr s → core = utf8 s) ∧ (∀ bs, v = .vBytes bs → core = bs) := by
  have tail : ∀ (textBytes : List Nat),
      ((if tag = PyTag.name "ATTRIBUTE_NAME" then { st with attributeName := textBytes }
          else st),
        (Except.ok (textBytes ++ List.replicate (pad8 textBytes.length) 0, textBytes.length) :
          Except EncErr (List Nat × Nat))) = (st2, .ok (vB, size)) →
      vB = textBytes ++ List.replicate (pad8 textBytes.length) 0 ∧ size = textBytes.length := by
    intro textBytes hm
    obtain ⟨-, h2⟩ := Prod.mk.injEq .. ▸ hm
    obtain ⟨hv, hs⟩ := Prod.mk.injEq .. ▸ (Except.ok.injEq .. ▸ h2)
    exact ⟨hv.symm, hs.symm⟩
  cases v with
  | vStr s =>
    simp only [encodeTypeText] at h
    obtain ⟨hv, hs⟩ := tail _ h
    refine ⟨utf8 s, hv, hs, ?_, ?_⟩
    · intro s2 hx
      cases hx
      rfl
    · intro bs2 hx
      exact PyVal.noConfusion hx
  | vBytes bs =>
    simp only [encodeTypeText, pyBytes] at h
    obtain ⟨hv, hs⟩ := tail _ h
    refine ⟨bs, hv, hs, ?_, ?_⟩
    · intro s2 hx
      exact PyVal.noConfusion hx
    · intro bs2 hx
      cases hx
      rfl
  | vInt i =>
    simp only [encodeTypeText, pyBytes] at h
    by_cases hi : 0 ≤ i
    · simp only [if_pos hi] at h
      obtain ⟨hv, hs⟩ := tail _ h
      refine ⟨_, hv, hs, ?_, ?_⟩
      · intro s2 hx
        exact PyVal.noConfusion hx
      · intro bs2 hx
        exact PyVal.noConfusion hx
    · simp only [if_neg hi] at h
      obtain ⟨-, h2⟩ := Prod.mk.injEq .. ▸ h
      exact Except.noConfusion h2
  | vBool b =>
    simp only [encodeTypeText, pyBytes] at h
    obtain ⟨hv, hs⟩ := tail _ h
    refine ⟨_, hv, hs, ?_, ?_⟩
    · intro s2 hx
      exact PyVal.noConfusion hx
    · intro bs2 hx
      exact PyVal.noConfusion hx
  | vList es =>
    simp only [encodeTypeText, pyBytes] at h
    obtain ⟨-, h2⟩ := Prod.mk.injEq .. ▸ h
    exact Except.noConfusion h2
  | vNone =>
    simp only [encodeTypeText, pyBytes] at h
    obtain ⟨-, h2⟩ := Prod.mk.injEq .. ▸ h
    exact Except.noConfusion h2

theorem shape_bytes {v : PyVal} {vB : List Nat} {size : Nat}
    (h : encodeTypeBytes v = .ok (vB, size)) :
    ∃ core, vB = core ++ List.replicate (pad8 core.length) 0 ∧ size = core.length ∧
      (∀ bs, v = .vBytes bs → core = bs) := by
  cases v with
  | vStr s =>
    simp only [encodeTypeBytes] at h
    cases hu : unhex s with
    | none =>
      simp only [hu] at h
      exact Except.noConfusion h
    | some bs2 =>
      simp only [hu] at h
      obtain ⟨hv, hs⟩ := Prod.mk.injEq .. ▸ (Except.ok.injEq .. ▸ h)
      refine ⟨bs2, hv.symm, hs.symm, ?_⟩
      intro x hx
      exact PyVal.noConfusion hx
  | vBytes bs =>
    simp only [encodeTypeBytes, pyBytes] at h
    obtain ⟨hv, hs⟩ := Prod.mk.injEq .. ▸ (Except.ok.injEq .. ▸ h)
    refine ⟨bs, hv.symm, hs.symm, ?_⟩
    intro x hx
    cases hx
    rfl
  | vInt i =>
    simp only [encodeTypeBytes, pyBytes] at h
    by_cases hi : 0 ≤ i
    · simp only [if_pos hi] at h
      obtain ⟨hv, hs⟩ := Prod.mk.injEq .. ▸ (Except.ok.injEq .. ▸ h)
      refine ⟨_, hv.symm, hs.symm, ?_⟩
      intro x hx
      exact PyVal.noConfusion hx
    · simp only [if_neg hi] at h
      exact Except.noConfusion h
  | vBool b =>
    simp only [encodeTypeBytes, pyBytes] at h
    obtain ⟨hv, hs⟩ := Prod.mk.injEq .. ▸ (Except.ok.injEq .. ▸ h)
    refine ⟨_, hv.symm, hs.symm, ?_⟩
    intro x hx
    exact PyVal.noConfusion hx
  | vList es =>
    simp only [encodeTypeBytes, pyBytes] at h
    exact Except.noConfusion h
  | vNone =>
    simp only [encodeTypeBytes, pyBytes] at h
    exact Except.noConfusion h

end TTLV

namespace TTLV

/-! ## Claim-level helpers -/

/-- Sum of the fully-framed byte counts (3-byte tag + 1-byte type + 4-byte
length + padded value) of a list of sibling elements. -/
def frameLenSum : Elements → Nat
  | .nil => 0
  | .cons c r => (frameOf c).length + frameLenSum r

theorem framesOf_length : ∀ cs : Elements, (framesOf cs).length = frameLenSum cs
  | .nil => rfl
  | .cons c r => by
    rw [framesOf_cons, frameLenSum, List.length_append, framesOf_length r]

theorem pad8_total (n : Nat) : (n + pad8 n) % 8 = 0 := by
  rw [pad8]
  omega

/-- The unpadded size and padded value-byte count every scalar arm of
`_encode_value` reports on success, per type name. -/
theorem encodeScalarValue_shape {ty : String} {v : PyVal} {tag : PyTag} {st st2 : EncState}
    {vB : List Nat} {size : Nat}
    (h : encodeScalarValue ty v tag st = (st2, .ok (vB, size))) :
    vB.length % 8 = 0 ∧
    ((ty = "INTEGER" ∨ ty = "ENUMERATION" ∨ ty = "INTERVAL") →
      size = 4 ∧ vB.length = 8 ∧ vB.drop 4 = List.replicate 4 0) ∧
    ((ty = "LONG_INTEGER" ∨ ty = "BIG_INTEGER" ∨ ty = "BOOLEAN" ∨ ty = "DATE_TIME" ∨
      ty = "DATE_TIME_EXTENDED") → size = 8 ∧ vB.length = 8) ∧
    ((ty = "TEXT_STRING" ∨ ty = "BYTE_STRING") →
      ∃ core, vB = core ++ List.replicate (pad8 core.length) 0 ∧ size = core.length) := by
  rw [encodeScalarValue] at h
  by_cases e1 : ty = "INTEGER"
  · subst e1
    rw [if_pos rfl] at h
    obtain ⟨-, hx⟩ := Prod.mk.injEq .. ▸ h
    obtain ⟨hs, hl, hd⟩ := shape_int4 hx
    refine ⟨by omega, fun _ => ⟨hs, hl, hd⟩, fun hor => ?_, fun hor => ?_⟩
    · rcases hor with h' | h' | h' | h' | h' <;> exact absurd h' (by decide)
    · rcases hor with h' | h' <;> exact absurd h' (by decide)
  rw [if_neg e1] at h
  by_cases e2 : ty = "LONG_INTEGER"
  · subst e2
    rw [if_pos rfl] at h
    obtain ⟨-, hx⟩ := Prod.mk.injEq .. ▸ h
    obtain ⟨hs, hl⟩ := shape_long hx
    refine ⟨by omega, fun hor => ?_, fun _ => ⟨hs, hl⟩, fun hor => ?_⟩
    · rcases hor with h' | h' | h' <;> exact absurd h' (by decide)
    · rcases hor with h' | h' <;> exact absurd h' (by decide)
  rw [if_neg e2] at h
  by_cases e3 : ty = "BIG_INTEGER"
  · subst e3
    rw [if_pos rfl] at h
    obtain ⟨-, hx⟩ := Prod.mk.injEq .. ▸ h
    obtain ⟨hs, hl⟩ := shape_bigint hx
    refine ⟨by omega, fun hor => ?_, fun _ => ⟨hs, hl⟩, fun hor => ?_⟩
    · rcases hor with h' | h' | h' <;> exact absurd h' (by decide)
    · rcases hor with h' | h' <;> exact absurd h' (by decide)
  rw [if_neg e3] at h
  by_cases e4 : ty = "ENUMERATION"
  · subst e4
    rw [if_pos rfl] at h
    obtain ⟨-, hx⟩ := Prod.mk.injEq .. ▸ h
    obtain ⟨hs, hl, hd⟩ := shape_enum hx
    refine ⟨by omega, fun _ => ⟨hs, hl, hd⟩, fun hor => ?_, fun hor => ?_⟩
    · rcases hor with h' | h' | h' | h' | h' <;> exact absurd h' (by decide)
    · rcases hor with h' | h' <;> exact absurd h' (by decide)
  rw [if_neg e4] at h
  by_cases e5 : ty = "BOOLEAN"
  · subst e5
    rw [if_pos rfl] at h
    obtain ⟨-, hx⟩ := Prod.mk.injEq .. ▸ h
    have hx2 : encodeTypeBool v = (vB, size) := Except.ok.injEq .. ▸ hx
    have hb := shape_bool v
    rw [hx2] at hb
    have hs : size = 8 := hb.1
    have hl : vB.length = 8 := hb.2
    refine ⟨by omega, fun hor => ?_, fun _ => ⟨hs, hl⟩, fun hor => ?_⟩
    · rcases hor with h' | h' | h' <;> exact absurd h' (by decide)
    · rcases hor with h' | h' <;> exact absurd h' (by decide)
  rw [if_neg e5] at h
  by_cases e6 : ty = "TEXT_STRING"
  · subst e6
    rw [if_pos rfl] at h
    obtain ⟨core, hv, hs, -, -⟩ := shape_text h
    refine ⟨?_, fun hor => ?_, fun hor => ?_, fun _ => ⟨core, hv, hs⟩⟩
    · rw [hv, List.length_append, List.length_replicate]
      exact pad8_total core.length
    · rcases hor with h' | h' | h' <;> exact absurd h' (by decide)
    · rcases hor with h' | h' | h' | h' | h' <;> exact absurd h' (by decide)
  rw [if_neg e6] at h
  by_cases e7 : ty = "BYTE_STRING"
  · subst e7
    rw [if_pos rfl] at h
    obtain ⟨-, hx⟩ := Prod.mk.injEq .. ▸ h
    obtain ⟨core, hv, hs, -⟩ := shape_bytes hx
    refine ⟨?_, fun hor => ?_, fun hor => ?_, fun _ => ⟨core, hv, hs⟩⟩
    · rw [hv, List.length_append, List.length_replicate]
      exact pad8_total core.length
    · rcases hor with h' | h' | h' <;> exact absurd h' (by decide)
    · rcases hor with h' | h' | h' | h' | h' <;> exact absurd h' (by decide)
  rw [if_neg e7] at h
  by_cases e8 : ty = "DATE_TIME"
  · subst e8
    rw [if_pos rfl] at h
    obtain ⟨-, hx⟩ := Prod.mk.injEq .. ▸ h
    obtain ⟨hs, hl⟩ := shape_date hx
    refine ⟨by omega, fun hor => ?_, fun _ => ⟨hs, hl⟩, fun hor => ?_⟩
    · rcases hor with h' | h' | h' <;> exact absurd h' (by decide)
    · rcases hor with h' | h' <;> exact absurd h' (by decide)
  rw [if_neg e8] at h
  by_cases e9 : ty = "INTERVAL"
  · subst e9
    rw [if_pos rfl] at h
    obtain ⟨-, hx⟩ := Prod.mk.injEq .. ▸ h
    obtain ⟨hs, hl, hd⟩ := shape_inter hx
    refine ⟨by omega, fun _ => ⟨hs, hl, hd⟩, fun hor => ?_, fun hor => ?_⟩
    · rcases hor with h' | h' | h' | h' | h' <;> exact absurd h' (by decide)
    · rcases hor with h' | h' <;> exact absurd h' (by decide)
  rw [if_neg e9] at h
  by_cases e10 : ty = "DATE_TIME_EXTENDED"
  · subst e10
    rw [if_pos rfl] at h
    obtain ⟨-, hx⟩ := Prod.mk.injEq .. ▸ h
    obtain ⟨hs, hl⟩ := shape_exdate hx
    refine ⟨by omega, fun hor => ?_, fun _ => ⟨hs, hl⟩, fun hor => ?_⟩
    · rcases hor with h' | h' | h' <;> exact absurd h' (by decide)
    · rcases hor with h' | h' <;> exact absurd h' (by decide)
  rw [if_neg e10] at h
  obtain ⟨-, hx⟩ := Prod.mk.injEq .. ▸ h
  exact Except.noConfusion hx

/-- On a successful `_encode_type` the rendered byte is the registry code. -/
theorem encodeType_ok_code {ty : String} {tyB : List Nat} (h : encodeType ty = .ok tyB) :
    tyB = [typeCodeOf ty] := by
  rw [encodeType] at h
  rw [getEnumValue_Types] at h
  cases hl : assocLookup ty typesTable with
  | none =>
    rw [hl] at h
    exact Except.noConfusion h
  | some c =>
    rw [hl] at h
    simp only at h
    split at h
    · cases h
      simp [typeCodeOf, hl]
    · cases h

end TTLV

namespace TTLV

/-! ## The claims -/

/-- C1: for every element tree whose enumerations are already resolved to
their integer codes (§3's `Enumeration(u32)`: no unresolved generic
enumerations) and that is well-formed, encoding the tree with `encode_ttlv`
on a fresh encoder succeeds and decoding the produced buffer yields exactly
that tree back: `decode(encode(t)) == t`. -/
theorem claim_C1_roundtrip (e : Element) (h : wfEl e = true) :
    ∃ bs, encodeEl e = some bs ∧ decodeTTLV bs = some (.cons e .nil) :=
  ⟨frameOf e, encodeEl_eq_frameOf h, decodeTTLV_frameOf h⟩

/-- C1 witness: the nested structure `REQUEST_HEADER { BATCH_COUNT:INTEGER:1 }`
round-trips concretely. -/
theorem claim_C1_roundtrip_witness :
    wfEl (.struct "REQUEST_HEADER" (.cons (.int "BATCH_COUNT" 1) .nil)) = true ∧
    ∃ bs, encodeEl (.struct "REQUEST_HEADER" (.cons (.int "BATCH_COUNT" 1) .nil)) = some bs ∧
      decodeTTLV bs =
        some (.cons (.struct "REQUEST_HEADER" (.cons (.int "BATCH_COUNT" 1) .nil)) .nil) :=
  ⟨by decide, claim_C1_roundtrip _ (by decide)⟩

/-- The `ATTRIBUTE_NAME:"Cryptographic Algorithm"` then
`ATTRIBUTE_VALUE:ENUMERATION:"AES"` sibling pair of the attribute-context
scenario, as entries of an enclosing structure's list value. -/
def attrPairAES : PyEntries :=
  .cons (.elem (.name "ATTRIBUTE_NAME") "TEXT_STRING" (.vStr "Cryptographic Algorithm"))
    (.cons (.elem (.name "ATTRIBUTE_VALUE") "ENUMERATION" (.vStr "AES")) .nil)

/-- The same sibling pair with attribute value `"SYMMETRIC_KEY"`, a name that
is not a member of the `CryptographicAlgorithm` enumeration (nor of the other
classes the attribute resolver tries). -/
def attrPairSym : PyEntries :=
  .cons (.elem (.name "ATTRIBUTE_NAME") "TEXT_STRING" (.vStr "Cryptographic Algorithm"))
    (.cons (.elem (.name "ATTRIBUTE_VALUE") "ENUMERATION" (.vStr "SYMMETRIC_KEY")) .nil)

/-- C2 counterexample: the attribute value of a structure child is not
resolved through the attribute-name context stored by its preceding sibling —
`_encode_type_struct` hands every child a brand-new encoder, whose stored
context is empty.  Discriminating input: with sibling value `"SYMMETRIC_KEY"`,
resolution through the stored context `"Cryptographic Algorithm"` would fail
(the class list it selects has no such member, first and second conjuncts),
yet the structure encodes fine, to the code 2 that `_get_enum_value`'s
tag-keyed `common_mappings` holds for `SYMMETRIC_KEY` (third conjunct) — so
the resolution the code performs is not the one the claim describes. -/
theorem claim_C2_counterexample :
    tryAttrClasses ["CryptographicAlgorithm", "State", "CryptographicUsageMask",
      "CryptographicAlgorithm"] "SYMMETRIC_KEY" = none ∧
    getEnumValueAttr (utf8 "Cryptographic Algorithm") (.name "ATTRIBUTE_VALUE")
      (.vStr "SYMMETRIC_KEY") = .error (.attrEnumNotFound "SYMMETRIC_KEY") ∧
    encodeStructList attrPairSym =
      .ok ([66, 0, 10, 7, 0, 0, 0, 23] ++ utf8 "Cryptographic Algorithm" ++ [0] ++
        [66, 0, 11, 5, 0, 0, 0, 4, 0, 0, 0, 2, 0, 0, 0, 0]) :=
  ⟨rfl, rfl, rfl⟩

/-- C2 (amended): the `ATTRIBUTE_NAME="Cryptographic Algorithm"` /
`ATTRIBUTE_VALUE:ENUMERATION:"AES"` sibling pair inside a structure does
encode AES to the cryptographic-algorithm code 3, but not through the stored
attribute-name context: each structure child is encoded by a fresh encoder
(line 91), so the value child resolves with the empty context (conjuncts 2
and 3: the lone value child encodes to the very same bytes), through
`_get_enum_value`'s `common_mappings` entry for AES (conjunct 4).  The
context mechanism itself links only elements encoded by one and the same
encoder object: a top-level `ATTRIBUTE_NAME` text element does store the
context (conjunct 5), and the attribute resolver consulted with that stored
context does resolve AES through the `CryptographicAlgorithm` namespace
(conjuncts 6 and 7). -/
theorem claim_C2_attr_context :
    encodeStructList attrPairAES =
      .ok ([66, 0, 10, 7, 0, 0, 0, 23] ++ utf8 "Cryptographic Algorithm" ++ [0] ++
        [66, 0, 11, 5, 0, 0, 0, 4, 0, 0, 0, 3, 0, 0, 0, 0]) ∧
    encodeStructList (.cons (.elem (.name "ATTRIBUTE_VALUE") "ENUMERATION" (.vStr "AES")) .nil) =
      .ok [66, 0, 11, 5, 0, 0, 0, 4, 0, 0, 0, 3, 0, 0, 0, 0] ∧
    encodeTypeEnum initState.attributeName (.vStr "AES") (.name "ATTRIBUTE_VALUE") =
      .ok ([0, 0, 0, 3] ++ [0, 0, 0, 0], 4) ∧
    assocLookup "AES" commonMappings = some 3 ∧
    (encodeTTLVSt initState (.name "ATTRIBUTE_NAME") "TEXT_STRING"
        (.vStr "Cryptographic Algorithm")).1.attributeName = utf8 "Cryptographic Algorithm" ∧
    getEnumValueAttr (utf8 "Cryptographic Algorithm") (.name "ATTRIBUTE_VALUE")
      (.vStr "AES") = .ok 3 ∧
    kmipLookup "CryptographicAlgorithm" "AES" = some 3 :=
  ⟨rfl, rfl, rfl, rfl, rfl, rfl, rfl⟩

/-- C3: the length field of an encoded structure whose value is a list of
well-formed children is exactly the sum of the children's fully-framed byte
counts, and the structure's value bytes are exactly the concatenated child
frames — nothing is appended to pad the structure itself (first conjunct:
the buffer grows by the 8 header bytes, the 4-byte big-endian field holding
`frameLenSum cs`, then `framesOf cs` as is).  Second conjunct: the structure
containing exactly one `BATCH_COUNT:INTEGER:1` child carries length field 16
(bytes 5-8 of its frame are `00 00 00 10`). -/
theorem claim_C3_structure_length :
    (∀ (t : String) (cs : Elements) (st : EncState), wfEl (.struct t cs) = true →
      ∃ stf, encodeTTLVSt st (.name t) "STRUCTURE" (.vList (elEntries cs)) =
          (stf, .ok (8 + frameLenSum cs)) ∧
        stf.buffer = st.buffer ++ tagBytes3 t ++ typeCodeOf "STRUCTURE" ::
          u32be (frameLenSum cs) ++ framesOf cs) ∧
    encodeTTLVSt initState (.name "REQUEST_HEADER") "STRUCTURE"
        (.vList (.cons (.elem (.name "BATCH_COUNT") "INTEGER" (.vInt 1)) .nil)) =
      (⟨[66, 0, 119, 1, 0, 0, 0, 16,
         66, 0, 13, 2, 0, 0, 0, 4, 0, 0, 0, 1, 0, 0, 0, 0], []⟩, .ok 24) := by
  constructor
  · intro t cs st h
    obtain ⟨stf, henc, hbuf⟩ := encodeEl_frame (.struct t cs) st h
    simp only [elTag, elTypeName, elPyVal] at henc
    have hfl : (frameOf (Element.struct t cs)).length = 8 + frameLenSum cs := by
      simp only [frameOf, elTag, elTypeName, sizeOfEl, wireOf, framesOf_length,
        List.length_append, List.length_cons, tagBytes3_length, u32be_length]
    have hfr : frameOf (Element.struct t cs) =
        tagBytes3 t ++ typeCodeOf "STRUCTURE" :: u32be (frameLenSum cs) ++ framesOf cs := by
      simp only [frameOf, elTag, elTypeName, sizeOfEl, wireOf, framesOf_length]
    rw [hfl] at henc
    refine ⟨stf, henc, ?_⟩
    rw [hbuf, hfr]
    simp only [List.append_assoc]
  · rfl

/-- C4: on every successful non-structure `encode_ttlv` call, the 4-byte
big-endian length field written to the buffer holds the unpadded value size
reported by `_encode_value` — 4 for `INTEGER`, `ENUMERATION` and `INTERVAL`,
8 for `LONG_INTEGER`, `BIG_INTEGER`, `BOOLEAN`, `DATE_TIME` and
`DATE_TIME_EXTENDED`, the raw unpadded byte count for `TEXT_STRING` and
`BYTE_STRING` — while the value bytes actually appended after it are
zero-padded to a multiple of 8 (for the 4-byte scalars: 8 written bytes, the
last 4 of them zero; for the strings: the raw bytes plus `pad8` zeros). -/
theorem claim_C4_length_field (st : EncState) (tag : PyTag) (ty : String)
    (v : PyVal) (st3 : EncState) (n : Nat)
    (h : encodeTTLVSt st tag ty v = (st3, .ok n)) (hty : ty ≠ "STRUCTURE") :
    ∃ tagB st2 vB size,
      encodeTag tag = .ok tagB ∧
      encodeValue ty v tag st = (st2, .ok (vB, size)) ∧
      st3.buffer = st2.buffer ++ tagB ++ [typeCodeOf ty] ++ u32be size ++ vB ∧
      size < 4294967296 ∧
      vB.length % 8 = 0 ∧
      ((ty = "INTEGER" ∨ ty = "ENUMERATION" ∨ ty = "INTERVAL") →
        size = 4 ∧ vB.length = 8 ∧ vB.drop 4 = List.replicate 4 0) ∧
      ((ty = "LONG_INTEGER" ∨ ty = "BIG_INTEGER" ∨ ty = "BOOLEAN" ∨ ty = "DATE_TIME" ∨
        ty = "DATE_TIME_EXTENDED") → size = 8 ∧ vB.length = 8) ∧
      ((ty = "TEXT_STRING" ∨ ty = "BYTE_STRING") →
        ∃ core, vB = core ++ List.replicate (pad8 core.length) 0 ∧ size = core.length) := by
  obtain ⟨tagB, tyB, st2, vB, size, hT, hY, hV, hlt, hst3, hn⟩ := encodeTTLVSt_ok_decomp h
  have hcode := encodeType_ok_code hY
  subst hcode
  have hV' := hV
  rw [encodeValue, if_neg hty] at hV'
  obtain ⟨hmod, h4, h8, htb⟩ := encodeScalarValue_shape hV'
  subst hst3
  exact ⟨tagB, st2, vB, size, hT, hV, rfl, hlt, hmod, h4, h8, htb⟩

/-- C4 witness: a 3-byte `BYTE_STRING` reports size 3 in the length field
while 8 value bytes (3 raw + 5 zeros) are written. -/
theorem claim_C4_length_field_witness :
    encodeTTLVSt initState (.name "ATTRIBUTE_VALUE") "BYTE_STRING" (.vBytes [1, 2, 3]) =
      (⟨[66, 0, 11, 8, 0, 0, 0, 3, 1, 2, 3, 0, 0, 0, 0, 0], []⟩, .ok 16) ∧
    "BYTE_STRING" ≠ "STRUCTURE" ∧
    (∃ tagB st2 vB size,
      encodeTag (.name "ATTRIBUTE_VALUE") = .ok tagB ∧
      encodeValue "BYTE_STRING" (.vBytes [1, 2, 3]) (.name "ATTRIBUTE_VALUE") initState =
        (st2, .ok (vB, size)) ∧
      (EncState.mk [66, 0, 11, 8, 0, 0, 0, 3, 1, 2, 3, 0, 0, 0, 0, 0] []).buffer =
        st2.buffer ++ tagB ++ [typeCodeOf "BYTE_STRING"] ++ u32be size ++ vB ∧
      size < 4294967296 ∧
      vB.length % 8 = 0 ∧
      (("BYTE_STRING" = "INTEGER" ∨ "BYTE_STRING" = "ENUMERATION" ∨
        "BYTE_STRING" = "INTERVAL") →
        size = 4 ∧ vB.length = 8 ∧ vB.drop 4 = List.replicate 4 0) ∧
      (("BYTE_STRING" = "LONG_INTEGER" ∨ "BYTE_STRING" = "BIG_INTEGER" ∨
        "BYTE_STRING" = "BOOLEAN" ∨ "BYTE_STRING" = "DATE_TIME" ∨
        "BYTE_STRING" = "DATE_TIME_EXTENDED") → size = 8 ∧ vB.length = 8) ∧
      (("BYTE_STRING" = "TEXT_STRING" ∨ "BYTE_STRING" = "BYTE_STRING") →
        ∃ core, vB = core ++ List.replicate (pad8 core.length) 0 ∧ size = core.length)) :=
  ⟨rfl, by decide,
    claim_C4_length_field initState (.name "ATTRIBUTE_VALUE") "BYTE_STRING"
      (.vBytes [1, 2, 3]) (EncState.mk [66, 0, 11, 8, 0, 0, 0, 3, 1, 2, 3, 0, 0, 0, 0, 0] [])
      16 rfl (by decide)⟩

/-- C5: encoding any well-formed element tree (structure values given as
lists of well-formed elements) onto a buffer whose length is a multiple of 8
succeeds and leaves the buffer's total length a multiple of 8; a fresh
encoder starts from the empty buffer, so every buffer `encode_ttlv` builds
from well-formed trees has length a multiple of 8. -/
theorem claim_C5_mod8 (e : Element) (st : EncState) (h : wfEl e = true)
    (hb : st.buffer.length % 8 = 0) :
    ∃ stf n, encodeTTLVSt st (.name (elTag e)) (elTypeName e) (elPyVal e) =
      (stf, .ok n) ∧ stf.buffer.length % 8 = 0 := by
  obtain ⟨stf, henc, hbuf⟩ := encodeEl_frame e st h
  refine ⟨stf, _, henc, ?_⟩
  rw [hbuf, List.length_append]
  have := frameOf_mod8 e
  omega

/-- C5 witness: a 3-byte text element on a fresh encoder yields a 16-byte
buffer. -/
theorem claim_C5_mod8_witness :
    wfEl (.text "UNIQUE_IDENTIFIER" [97, 98, 99]) = true ∧
    initState.buffer.length % 8 = 0 ∧
    ∃ stf n, encodeTTLVSt initState (.name (elTag (.text "UNIQUE_IDENTIFIER" [97, 98, 99])))
        (elTypeName (.text "UNIQUE_IDENTIFIER" [97, 98, 99]))
        (elPyVal (.text "UNIQUE_IDENTIFIER" [97, 98, 99])) =
      (stf, .ok n) ∧ stf.buffer.length % 8 = 0 :=
  ⟨by decide, by decide, claim_C5_mod8 _ _ (by decide) (by decide)⟩

/-- C6: encoding `{tag: ATTRIBUTE_NAME, type: TEXT_STRING, value: "MyTestKey"}`
on a fresh encoder produces exactly the 3-byte tag `42 00 0A`, the type byte
`07`, the 4-byte big-endian length field 9, the 9 UTF-8 bytes of
`"MyTestKey"` and 7 zero padding bytes — a 24-byte frame with 16 value
bytes. -/
theorem claim_C6_mytestkey :
    encodeTTLVSt initState (.name "ATTRIBUTE_NAME") "TEXT_STRING" (.vStr "MyTestKey") =
      (⟨[66, 0, 10] ++ [7] ++ [0, 0, 0, 9] ++ utf8 "MyTestKey" ++ List.replicate 7 0,
        utf8 "MyTestKey"⟩, .ok 24) ∧
    utf8 "MyTestKey" = [77, 121, 84, 101, 115, 116, 75, 101, 121] ∧
    (utf8 "MyTestKey").length = 9 ∧
    ([66, 0, 10] ++ [7] ++ [0, 0, 0, 9] ++ utf8 "MyTestKey" ++ List.replicate 7 0).length = 24 :=
  ⟨rfl, rfl, rfl, rfl⟩

/-- C7: an enumeration value supplied as an integer skips symbolic
resolution — the result does not depend on the stored attribute-name context
(first conjunct) — and in range it is written unchanged as a big-endian u32
followed by 4 zero padding bytes with length field 4 (second conjunct);
concretely, `{tag: OPERATION, type: ENUMERATION, value: 1}` encodes to the
16-byte frame `42 00 5C 05 00 00 00 04 00 00 00 01 00 00 00 00` (third
conjunct). -/
theorem claim_C7_enum_int :
    (∀ (attr attr2 : List Nat) (i : Int) (tag : PyTag),
      encodeTypeEnum attr (.vInt i) tag = encodeTypeEnum attr2 (.vInt i) tag) ∧
    (∀ (n : Nat) (tag : PyTag) (st : EncState), n < 4294967296 →
      encodeValue "ENUMERATION" (.vInt (n : Int)) tag st =
        (st, .ok (u32be n ++ List.replicate 4 0, 4))) ∧
    encodeTTLVSt initState (.name "OPERATION") "ENUMERATION" (.vInt 1) =
      (⟨[66, 0, 92, 5, 0, 0, 0, 4, 0, 0, 0, 1, 0, 0, 0, 0], []⟩, .ok 16) := by
  refine ⟨fun attr attr2 i tag => rfl, fun n tag st hn => ?_, rfl⟩
  rw [encodeValue_enumInt tag st (Int.natCast_nonneg n) (by exact_mod_cast hn)]
  simp only [Int.toNat_natCast]

/-- C8 counterexample: an integer tag passes through `_get_enum_value`
unchanged, so 32768 resolves to the 16-bit code 0x8000 — yet `_encode_tag`
fails on it, because `struct.pack(">Bh", 0x42, tag_lower)` uses the signed
16-bit format, which rejects every code of 0x8000 and above.  The 3-byte
render therefore does not exist for every possible 16-bit tag code. -/
theorem claim_C8_counterexample :
    getEnumValue (.name "Tags") (pyTagVal (.num 32768)) = .ok 32768 ∧
    encodeTag (.num 32768) = .error .packRange :=
  ⟨rfl, rfl⟩

/-- C8 (amended): for every tag that resolves to a code whose low 16 bits
are below 0x8000, the wire tag is the fixed 3-byte field — the marker byte
0x42 followed by the big-endian low 16 bits of the code (first conjunct);
every code of the tag registry satisfies that bound (second conjunct), so
every registered tag name gets the 3-byte field — but codes with the high
bit set fail the signed-short pack, so the render does not exist for every
possible 16-bit code. -/
theorem claim_C8_tag_marker :
    (∀ (tag : PyTag) (c : Int),
      getEnumValue (.name "Tags") (pyTagVal tag) = .ok c →
      (c % 65536).toNat < 32768 →
      encodeTag tag = .ok [66, (c % 65536).toNat / 256, (c % 65536).toNat % 256]) ∧
    tagsTable.all (fun p => decide ((p.2 % 65536).toNat < 32768)) = true := by
  refine ⟨fun tag c h hlow => ?_, by decide⟩
  simp only [encodeTag, h]
  rw [if_pos hlow]

/-- C9: a type name outside the eleven supported variants makes `encode_ttlv`
fail with the whole encoder state — in particular the buffer — unchanged
(the buffer is only extended after every part has been encoded).  The error
is the registry miss on the `Types` lookup whenever the tag itself encodes
(the spec's `UnsupportedType`: a variant absent from the registry), and the
scalar value dispatch, reached on no path for such a type name, is exactly
the source's `Unsupported type` raise, also state-preserving. -/
theorem claim_C9_unsupported_type (st : EncState) (tag : PyTag) (ty : String) (v : PyVal)
    (hty : ty ∉ ["STRUCTURE", "INTEGER", "LONG_INTEGER", "BIG_INTEGER", "ENUMERATION",
      "BOOLEAN", "TEXT_STRING", "BYTE_STRING", "DATE_TIME", "INTERVAL",
      "DATE_TIME_EXTENDED"]) :
    (∃ err, encodeTTLVSt st tag ty v = (st, .error err) ∧
      ∀ tb, encodeTag tag = .ok tb → err = .enumNotFound "Types" ty) ∧
    encodeScalarValue ty v tag st = (st, .error (.unsupportedType ty)) := by
  simp only [List.mem_cons, List.mem_singleton, not_or] at hty
  obtain ⟨h1, h2, h3, h4, h5, h6, h7, h8, h9, h10, h11, -⟩ := hty
  have hnone : assocLookup ty typesTable = none := by
    simp [typesTable, assocLookup, h1, h2, h3, h4, h5, h6, h7, h8, h9, h10, h11]
  have hT : encodeType ty = .error (.enumNotFound "Types" ty) := by
    simp only [encodeType, getEnumValue_Types, hnone]
  constructor
  · rw [encodeTTLVSt_eq]
    cases hTag : encodeTag tag with
    | error e =>
      refine ⟨e, ?_, fun tb htb => ?_⟩
      · simp only [assemble]
      · exact Except.noConfusion htb
    | ok tb0 =>
      refine ⟨.enumNotFound "Types" ty, ?_, fun tb htb => rfl⟩
      rw [hT]
      simp only [assemble]
  · rw [encodeScalarValue, if_neg h2, if_neg h3, if_neg h4, if_neg h5, if_neg h6,
      if_neg h7, if_neg h8, if_neg h9, if_neg h10, if_neg h11]

/-- C9 witness: the unsupported type name `"FLOAT"` fails on a fresh encoder
with the state unchanged. -/
theorem claim_C9_unsupported_type_witness :
    "FLOAT" ∉ ["STRUCTURE", "INTEGER", "LONG_INTEGER", "BIG_INTEGER", "ENUMERATION",
      "BOOLEAN", "TEXT_STRING", "BYTE_STRING", "DATE_TIME", "INTERVAL",
      "DATE_TIME_EXTENDED"] ∧
    ((∃ err, encodeTTLVSt initState (.name "OPERATION") "FLOAT" .vNone =
        (initState, .error err) ∧
      ∀ tb, encodeTag (.name "OPERATION") = .ok tb → err = .enumNotFound "Types" "FLOAT") ∧
    encodeScalarValue "FLOAT" .vNone (.name "OPERATION") initState =
      (initState, .error (.unsupportedType "FLOAT"))) :=
  ⟨by decide, claim_C9_unsupported_type initState (.name "OPERATION") "FLOAT" .vNone
    (by decide)⟩

/-- C10: every structure-list entry that is not a dict with all three of the
keys `tag`, `type` and `value` is skipped with no error — dropping such an
entry leaves the encoded structure unchanged (first conjunct) — and a
structure whose list holds only malformed entries encodes as an empty
structure: length field 0 and no value bytes (second conjunct). -/
theorem claim_C10_malformed_skipped :
    (∀ rest : PyEntries, encodeStructList (.cons .malformed rest) = encodeStructList rest) ∧
    encodeTTLVSt initState (.name "REQUEST_HEADER") "STRUCTURE"
        (.vList (.cons .malformed (.cons .malformed .nil))) =
      (⟨[66, 0, 119, 1, 0, 0, 0, 0], []⟩, .ok 8) := by
  refine ⟨fun rest => ?_, rfl⟩
  rw [encodeStructList]

end TTLV
